import Mathlib

/-!
# LMS client scripts: a verification development

A shallow embedding of `static/js/app.js` (form renderer, action dispatcher,
student search, table utility, draft persistence, debounce) together with
theorems about the embedded definitions.

Conventions of the embedding
* JavaScript strings are Lean strings.  `s.length` of JavaScript counts UTF-16
  code units and is embedded as `jsLength`.
* Browser functions whose behaviour is fixed by the platform and not by this
  repository (`String.prototype.toLowerCase`, `String.prototype.localeCompare`,
  `parseFloat`, `Date` parsing, `encodeURIComponent`, the CSS parser on
  selectors with quotes or escapes) are fields of `Platform`, a parameter of
  the definitions that call them.
* A string in local storage is given by what `JSON.parse` makes of it
  (`StoredText`).
* Effects on the outside world (prompts, requests, submitted forms,
  notifications, reloads) are recorded as explicit values; time is a natural
  number of milliseconds and timers run at ticks of the event loop.
-/

namespace LMS

/-! ## Form builder: `generateFormHTML` -/

/-- One entry of `field.options`. -/
structure OptionEntry where
  value : String
  label : String
deriving DecidableEq, Repr

/-- A field definition as received from `/api/forms/<id>/preview`.  A missing
property (`undefined`) is `none`. -/
structure FieldDefinition where
  type : String
  label : String
  placeholder : Option String
  required : Bool
  help_text : Option String
  options : Option (List OptionEntry)
deriving DecidableEq, Repr

/-- The expression `x || ''` for a string-or-undefined `x`. -/
def orEmpty : Option String → String
  | some s => s
  | none => ""

/-- JavaScript truthiness of a string-or-undefined value: `undefined` and the
empty string are falsy. -/
def truthy : Option String → Bool
  | some s => s != ""
  | none => false

/-- The expression `field.required ? '<span class="text-danger">*</span>' : ''`. -/
def requiredMarker (field : FieldDefinition) : String :=
  if field.required then "<span class=\"text-danger\">*</span>" else ""

/-- The expression `field.required ? 'required' : ''`. -/
def requiredAttr (field : FieldDefinition) : String :=
  if field.required then "required" else ""

/-- The expression
`field.help_text ? '<div class="form-text">' + field.help_text + '</div>' : ''`. -/
def helpText (field : FieldDefinition) : String :=
  if truthy field.help_text then
    "<div class=\"form-text\">" ++ orEmpty field.help_text ++ "</div>"
  else ""

/-- The arrow function mapped over `field.options`. -/
def optionHTML (opt : OptionEntry) : String :=
  "<option value=\"" ++ opt.value ++ "\">" ++ opt.label ++ "</option>"

/-- The constant `options` of the `select` case. -/
def selectOptions (field : FieldDefinition) : String :=
  match field.options with
  | some opts => String.join (opts.map optionHTML)
  | none => ""

/-- The template of the `text` and `email` cases; `inputType` is the only
place where the two templates differ. -/
def inputBlock (inputType : String) (field : FieldDefinition) : String :=
  "\n                    <div class=\"mb-3\">" ++
  "\n                        <label class=\"form-label\">" ++ field.label ++ " " ++
    requiredMarker field ++ "</label>" ++
  "\n                        <input type=\"" ++ inputType ++
    "\" class=\"form-control\" placeholder=\"" ++ orEmpty field.placeholder ++ "\" " ++
    requiredAttr field ++ ">" ++
  "\n                        " ++ helpText field ++
  "\n                    </div>" ++
  "\n                "

/-- The template of the `select` case. -/
def selectBlock (field : FieldDefinition) : String :=
  "\n                    <div class=\"mb-3\">" ++
  "\n                        <label class=\"form-label\">" ++ field.label ++ " " ++
    requiredMarker field ++ "</label>" ++
  "\n                        <select class=\"form-control\" " ++ requiredAttr field ++ ">" ++
  "\n                            <option value=\"\">-- Select --</option>" ++
  "\n                            " ++ selectOptions field ++
  "\n                        </select>" ++
  "\n                        " ++ helpText field ++
  "\n                    </div>" ++
  "\n                "

/-- The text of the `default` template before `${field.label}`. -/
def fallbackOpen : String := "<div class=\"mb-3\"><label class=\"form-label\">"

/-- The text of the `default` template after `${field.label}`. -/
def fallbackClose : String := "</label><input type=\"text\" class=\"form-control\"></div>"

/-- The template of the `default` case. -/
def fallbackBlock (field : FieldDefinition) : String :=
  fallbackOpen ++ field.label ++ fallbackClose

/-- The body of the arrow function of `generateFormHTML`: the `switch` on
`field.type`. -/
def fieldBlock (field : FieldDefinition) : String :=
  if field.type = "text" then inputBlock "text" field
  else if field.type = "email" then inputBlock "email" field
  else if field.type = "select" then selectBlock field
  else fallbackBlock field

/-- `generateFormHTML(fields)`: `fields.map(...).join('')`. -/
def generateFormHTML (fields : List FieldDefinition) : String :=
  String.join (fields.map fieldBlock)

/-! ## Strings of JavaScript -/

/-- `s.length`: the number of UTF-16 code units of `s`. -/
def jsLength (s : String) : Nat :=
  (s.data.map (fun c => if c.val < 0x10000 then 1 else 2)).sum

/-- Whether `needle` occurs in `text` at some position: the search behind
`String.prototype.includes`. -/
def includesFrom (needle : List Char) : List Char → Bool
  | [] => needle.isPrefixOf []
  | c :: cs => needle.isPrefixOf (c :: cs) || includesFrom needle cs

/-- `text.includes(needle)`. -/
def includes (text needle : String) : Bool :=
  includesFrom needle.data text.data

/-! ## Documents with forms -/

/-- A text control of a form (`input type="text"`, `textarea`): its `name`
attribute, `none` when it has none, and its current value. A control of this
kind is listed by `FormData` when its name is not empty, and its value can be
set to any string. -/
structure Field where
  name : Option String
  value : String
deriving DecidableEq, Repr

/-- What `form.querySelector(selector)` can come to: an element, given by its
position among the fields of the form, `null`, or a `SyntaxError`. -/
inductive Lookup where
  | found (index : Nat)
  | notFound
  | syntaxError
deriving DecidableEq, Repr

/-! ## Platform functions -/

/-- A JavaScript number as far as the scripts look at it: `NaN`, an infinity,
or a finite value (kept exact). -/
inductive JSNumber where
  | nan
  | negInf
  | fin (q : ℚ)
  | posInf
deriving DecidableEq

/-- Functions of the browser that the scripts call and do not define. -/
structure Platform where
  /-- `parseFloat(s)` -/
  parseFloat : String → JSNumber
  /-- The time value of `new Date(s)`, `NaN` for an invalid date. -/
  dateValue : String → JSNumber
  /-- `a.localeCompare(b)` -/
  localeCompare : String → String → Int
  /-- `s.toLowerCase()` -/
  toLowerCase : String → String
  /-- `encodeURIComponent(s)` -/
  encodeURIComponent : String → String
  /-- `form.querySelector('[name="' + key + '"]')` for a key that holds a double
  quote, a backslash, a line break or a null character: such a key does not
  stand for itself inside the quoted string of the selector, and what the
  selector then means is for the CSS parser to say. -/
  exoticSelector : String → List Field → Lookup

/-! ## Effects of the dispatcher -/

/-- A request made with `fetch`. `body` lists the entries of the `FormData`
body, empty when the request has none. -/
structure Request where
  method : String
  url : String
  headers : List (String × String)
  body : List (String × String)
deriving DecidableEq, Repr

/-- A hidden `input` appended to a synthetic form. -/
structure HiddenInput where
  name : String
  value : String
deriving DecidableEq, Repr

/-- A synthetic form as it stands when `form.submit()` is called. -/
structure SubmittedForm where
  method : String
  action : String
  inputs : List HiddenInput
deriving DecidableEq, Repr

/-- What an operation does to the outside world, in the order it does it. -/
inductive Effect where
  /-- `confirm(message)` was shown -/
  | confirm (message : String)
  /-- `fetch` was called -/
  | fetch (req : Request)
  /-- a form was created, appended to the body and submitted -/
  | submitForm (form : SubmittedForm)
  /-- `showAlert(message, type)` -/
  | showAlert (message : String) (type : String)
  /-- `setTimeout(() => location.reload(), delay)` -/
  | scheduleReload (delay : Nat)
  /-- `location.reload()` -/
  | reload
  /-- `console.error(...)` -/
  | consoleError (message : String)
deriving DecidableEq, Repr

/-- How a `fetch` ends. `json` is the parsed body when the body is JSON of the
shape `{success, message}` that `deleteDepartment` reads, `none` when
`response.json()` rejects. -/
inductive FetchOutcome where
  /-- the promise rejects: no response arrived -/
  | networkError
  /-- a response arrived -/
  | response (status : Nat) (json : Option (Bool × String))
deriving DecidableEq, Repr

/-- `response.ok`. -/
def FetchOutcome.ok : FetchOutcome → Bool
  | .networkError => false
  | .response status _ => decide (200 ≤ status) && decide (status ≤ 299)

/-- A checked checkbox `input[name="user_ids[]"]`. -/
structure UserCheckbox where
  value : String
  /-- `dataset.userName`, `none` when the attribute is missing -/
  userName : Option String
deriving DecidableEq, Repr

/-- The parts of the document that the dispatcher reads. -/
structure Document where
  /-- the `content` of `meta[name="csrf-token"]`, `none` when there is no such tag -/
  csrfMeta : Option String
  /-- the value of `#bulkAction` -/
  bulkAction : String
  /-- the checked checkboxes named `user_ids[]`, in document order -/
  checkedUsers : List UserCheckbox
deriving DecidableEq, Repr

/-- `getCSRFToken()`. -/
def getCSRFToken (doc : Document) : String :=
  match doc.csrfMeta with
  | some content => content
  | none => ""

/-- The part shared by `bulkUserAction` and `resetUserPassword`: the hidden
`csrf_token` input, added when the meta tag exists. -/
def csrfInputOfMeta (doc : Document) : List HiddenInput :=
  match doc.csrfMeta with
  | some content => [⟨"csrf_token", content⟩]
  | none => []

/-- A string put into a template literal: `undefined` prints as `undefined`. -/
def templateText : Option String → String
  | some s => s
  | none => "undefined"

/-- `bulkUserAction()`. `confirm` is the answer of the user to a prompt. -/
def bulkUserAction (confirm : String → Bool) (doc : Document) : List Effect :=
  let action := doc.bulkAction
  let checkboxes := doc.checkedUsers
  if action = "" then
    [Effect.showAlert "Please select an action" "warning"]
  else if checkboxes.length = 0 then
    [Effect.showAlert "Please select at least one user" "warning"]
  else
    let userIds := checkboxes.map (fun cb => cb.value)
    let userName :=
      match checkboxes with
      | [cb] => templateText cb.userName
      | _ => toString checkboxes.length ++ " users"
    let message := "Are you sure you want to " ++ action ++ " " ++ userName ++ "?"
    if confirm message then
      [Effect.confirm message,
       Effect.submitForm
        { method := "POST"
          action := "/users/bulk-action"
          inputs := [⟨"action", action⟩] ++ userIds.map (fun id => ⟨"user_ids[]", id⟩) ++
            csrfInputOfMeta doc }]
    else
      [Effect.confirm message]

/-- `resetUserPassword(userId, userName)`. -/
def resetUserPassword (confirm : String → Bool) (doc : Document)
    (userId userName : String) : List Effect :=
  let message :=
    "Reset password for " ++ userName ++ "? New credentials will be sent to their email."
  if confirm message then
    [Effect.confirm message,
     Effect.submitForm
      { method := "POST"
        action := "/users/" ++ userId ++ "/reset-password"
        inputs := csrfInputOfMeta doc }]
  else
    [Effect.confirm message]

/-- The request of `startClass`, `endClass` and `deleteDepartment`. -/
def jsonPost (doc : Document) (url : String) : Request :=
  { method := "POST"
    url := url
    headers := [("Content-Type", "application/json"), ("X-CSRFToken", getCSRFToken doc)]
    body := [] }

/-- The two continuations of `startClass` and `endClass`: reload on an ok
response, otherwise the thrown error reaches `catch`. -/
def reloadOrAlert (failure : String) (outcome : FetchOutcome) : List Effect :=
  if outcome.ok then [Effect.reload] else [Effect.showAlert failure "danger"]

/-- `startClass(classId)` together with the continuations of its request;
`server` is how the request ends. -/
def startClass (confirm : String → Bool) (server : Request → FetchOutcome)
    (doc : Document) (classId : String) : List Effect :=
  if confirm "Start this class session?" then
    let req := jsonPost doc ("/classes/" ++ classId ++ "/start")
    [Effect.confirm "Start this class session?", Effect.fetch req] ++
      reloadOrAlert "Failed to start class" (server req)
  else
    [Effect.confirm "Start this class session?"]

/-- `endClass(classId)` together with the continuations of its request. -/
def endClass (confirm : String → Bool) (server : Request → FetchOutcome)
    (doc : Document) (classId : String) : List Effect :=
  if confirm "End this class session?" then
    let req := jsonPost doc ("/classes/" ++ classId ++ "/end")
    [Effect.confirm "End this class session?", Effect.fetch req] ++
      reloadOrAlert "Failed to end class" (server req)
  else
    [Effect.confirm "End this class session?"]

/-- The continuations of `deleteDepartment`: `response.json()`, then the test of
`data.success`; a rejection on the way reaches `catch`. -/
def deleteDepartmentThen (outcome : FetchOutcome) : List Effect :=
  match outcome with
  | .response _ (some (success, message)) =>
    if success then [Effect.showAlert message "success", Effect.scheduleReload 1000]
    else [Effect.showAlert message "danger"]
  | _ => [Effect.showAlert "Failed to delete department" "danger"]

/-- `deleteDepartment(deptId, deptName)` together with the continuations of its
request. -/
def deleteDepartment (confirm : String → Bool) (server : Request → FetchOutcome)
    (doc : Document) (deptId deptName : String) : List Effect :=
  let message := "Delete department \"" ++ deptName ++ "\"? This action cannot be undone."
  if confirm message then
    let req := jsonPost doc ("/departments/" ++ deptId ++ "/delete")
    [Effect.confirm message, Effect.fetch req] ++ deleteDepartmentThen (server req)
  else
    [Effect.confirm message]

/-- `confirmDelete(itemName, deleteUrl)`: the token input is added when
`getCSRFToken()` is a non-empty string. -/
def confirmDelete (confirm : String → Bool) (doc : Document)
    (itemName deleteUrl : String) : List Effect :=
  let message :=
    "Are you sure you want to delete \"" ++ itemName ++ "\"? This action cannot be undone."
  if confirm message then
    let csrfToken := getCSRFToken doc
    [Effect.confirm message,
     Effect.submitForm
      { method := "POST"
        action := deleteUrl
        inputs := if csrfToken = "" then [] else [⟨"csrf_token", csrfToken⟩] }]
  else
    [Effect.confirm message]

/-- The optional elements that `markAttendance` reads with `?.`: the value (or
checked state) of each element, `none` when the document has no such element. -/
structure AttendanceInputs where
  arrivalTime : Option String
  lateMinutes : Option String
  participationLevel : Option String
  behaviorNotes : Option String
  homeworkSubmitted : Option Bool
deriving DecidableEq, Repr

/-- The expression `x?.value || '0'`. -/
def orZero (x : Option String) : String :=
  if truthy x then orEmpty x else "0"

/-- The expression `x?.checked || false`, as `FormData.append` writes it. -/
def checkedText : Option Bool → String
  | some true => "true"
  | _ => "false"

/-- The two continuations shared by `markAttendance` and `processPayment`: on
an ok response a success notification and a reload after 1000 ms, otherwise
the thrown error reaches `catch`. -/
def notifyOrAlert (success failure : String) (outcome : FetchOutcome) : List Effect :=
  if outcome.ok then [Effect.showAlert success "success", Effect.scheduleReload 1000]
  else [Effect.showAlert failure "danger"]

/-- The request that `markAttendance` builds: the `FormData` body and the
options of `fetch`. -/
def attendanceRequest (doc : Document) (inputs : AttendanceInputs)
    (classId studentId status : String) : Request :=
  { method := "POST"
    url := "/classes/" ++ classId ++ "/attendance"
    headers := [("X-CSRFToken", getCSRFToken doc)]
    body :=
      [("student_id", studentId),
       ("status", status),
       ("arrival_time", orEmpty inputs.arrivalTime),
       ("late_minutes", orZero inputs.lateMinutes),
       ("participation_level", orEmpty inputs.participationLevel),
       ("behavior_notes", orEmpty inputs.behaviorNotes),
       ("homework_submitted", checkedText inputs.homeworkSubmitted)] }

/-- `markAttendance(classId, studentId, status)` together with the
continuations of its request. -/
def markAttendance (server : Request → FetchOutcome) (doc : Document)
    (inputs : AttendanceInputs) (classId studentId status : String) : List Effect :=
  let req := attendanceRequest doc inputs classId studentId status
  [Effect.fetch req] ++
    notifyOrAlert "Attendance marked successfully" "Failed to mark attendance" (server req)

/-- The elements that `processPayment(feeId)` reads: the values of
`#amount_<feeId>`, `#payment_method_<feeId>` and `#transaction_id_<feeId>`. -/
structure PaymentInputs where
  amount : String
  paymentMethod : String
  transactionId : String
deriving DecidableEq, Repr

/-- The request that `processPayment` builds. `today` is
`new Date().toISOString().split('T')[0]`. -/
def paymentRequest (doc : Document) (inputs : PaymentInputs) (today feeId : String) :
    Request :=
  { method := "POST"
    url := "/finance/fees/" ++ feeId ++ "/pay"
    headers := [("X-CSRFToken", getCSRFToken doc)]
    body :=
      [("amount", inputs.amount),
       ("payment_method", inputs.paymentMethod),
       ("transaction_id", inputs.transactionId),
       ("payment_date", today)] }

/-- `processPayment(feeId)` together with the continuations of its request. -/
def processPayment (server : Request → FetchOutcome) (doc : Document)
    (inputs : PaymentInputs) (today : String) (feeId : String) : List Effect :=
  if inputs.amount = "" ∨ inputs.paymentMethod = "" then
    [Effect.showAlert "Please fill in all required fields" "warning"]
  else
    let req := paymentRequest doc inputs today feeId
    [Effect.fetch req] ++
      notifyOrAlert "Payment processed successfully" "Payment processing failed" (server req)

/-- Whether an effect contacts the server: a request or a submitted form. -/
def Effect.isSend : Effect → Bool
  | .fetch _ => true
  | .submitForm _ => true
  | _ => false

/-- Whether an effect is a prompt. -/
def Effect.isConfirm : Effect → Bool
  | .confirm _ => true
  | _ => false

/-- Whether an effect is a notification of the given type. -/
def Effect.isAlert (type : String) : Effect → Bool
  | .showAlert _ t => t == type
  | _ => false

/-- Whether an effect reloads the page or schedules a reload. -/
def Effect.isReload : Effect → Bool
  | .scheduleReload _ => true
  | .reload => true
  | _ => false

/-! ## Student search: `searchStudents` -/

/-- The synchronous part of `searchStudents(query)`: the new content of
`#studentSearchResults` and the requests issued. The continuation that renders
the answer runs only for a request that was issued. -/
def searchStudents (P : Platform) (query : String) (results : String) :
    String × List Effect :=
  if jsLength query < 2 then
    ("", [])
  else
    (results,
     [Effect.fetch
      { method := "GET"
        url := "/api/students/search?q=" ++ P.encodeURIComponent query
        headers := []
        body := [] }])

/-! ## Table utility: `sortTable`, `filterTable` -/

/-- The white space and line terminators that `String.prototype.trim` strips. -/
def isJsWhitespace (c : Char) : Bool :=
  let n := c.val.toNat
  n == 0x9 || n == 0xA || n == 0xB || n == 0xC || n == 0xD || n == 0x20 || n == 0xA0 ||
  n == 0x1680 || (decide (0x2000 ≤ n) && decide (n ≤ 0x200A)) || n == 0x2028 ||
  n == 0x2029 || n == 0x202F || n == 0x205F || n == 0x3000 || n == 0xFEFF

/-- `s.trim()`. -/
def jsTrim (s : String) : String :=
  ⟨((s.data.dropWhile isJsWhitespace).reverse.dropWhile isJsWhitespace).reverse⟩

/-- A child node of a table row: a cell with its text content, or another node
(such as the white space between two cells) with its text content. -/
inductive RowNode where
  | cell (text : String)
  | other (text : String)
deriving DecidableEq, Repr

/-- The text content of a node. -/
def RowNode.textContent : RowNode → String
  | .cell t => t
  | .other t => t

/-- A body row: its child nodes in order and `row.style.display`. -/
structure Row where
  nodes : List RowNode
  display : String
deriving DecidableEq, Repr

/-- `row.cells`, each cell given by its text content. -/
def Row.cells (row : Row) : List String :=
  row.nodes.filterMap (fun n => match n with
    | .cell t => some t
    | .other _ => none)

/-- `row.textContent`. -/
def Row.textContent (row : Row) : String :=
  String.join (row.nodes.map RowNode.textContent)

/-- `row.cells[columnIndex].textContent.trim()`; `none` stands for the
`TypeError` raised when the row has no such cell. -/
def cellText (row : Row) (columnIndex : Nat) : Option String :=
  (row.cells.get? columnIndex).map jsTrim

/-- The difference `a - b` of two numbers. For finite operands the value kept
is the exact difference: the floating-point result is that value rounded, which
has the same sign, and the sort reads nothing but the sign. -/
def JSNumber.sub : JSNumber → JSNumber → JSNumber
  | .nan, _ => .nan
  | _, .nan => .nan
  | .posInf, .posInf => .nan
  | .negInf, .negInf => .nan
  | .posInf, _ => .posInf
  | .negInf, _ => .negInf
  | .fin _, .posInf => .negInf
  | .fin _, .negInf => .posInf
  | .fin a, .fin b => .fin (a - b)

/-- Whether a comparator result is greater than zero. A `NaN` result counts as
zero, as `Array.prototype.sort` prescribes. -/
def JSNumber.isPositive : JSNumber → Bool
  | .fin q => decide (0 < q)
  | .posInf => true
  | _ => false

/-- The comparator that `sortTable` hands to `rows.sort`. -/
def compareRows (P : Platform) (columnIndex : Nat) (sortType : String) (a b : Row) :
    Option JSNumber := do
  let aValue ← cellText a columnIndex
  let bValue ← cellText b columnIndex
  if sortType = "number" then
    pure ((P.parseFloat aValue).sub (P.parseFloat bValue))
  else if sortType = "date" then
    pure ((P.dateValue aValue).sub (P.dateValue bValue))
  else
    pure (JSNumber.fin (P.localeCompare aValue bValue))

/-- Insert `x` in front of the first element that the comparator does not put
before it. `none` when the comparator throws. -/
def insertSorted {α : Type} (cmp : α → α → Option JSNumber) (x : α) :
    List α → Option (List α)
  | [] => some [x]
  | y :: ys => do
    let v ← cmp x y
    if v.isPositive then
      let rest ← insertSorted cmp x ys
      pure (y :: rest)
    else
      pure (x :: y :: ys)

/-- `Array.prototype.sort` with a comparator, as a stable insertion sort. The
standard leaves the algorithm open and requires a stable result; for a
consistent comparator every such sort returns this list. `none` when the
comparator throws. -/
def jsSort {α : Type} (cmp : α → α → Option JSNumber) : List α → Option (List α)
  | [] => some []
  | x :: xs => do
    let sorted ← jsSort cmp xs
    insertSorted cmp x sorted

/-- `tbody.appendChild(row)` for a row that is a child of `tbody`: the row
leaves its place and becomes the last child. A row is identified by the
position it had when `sortTable` collected the rows. -/
def appendChild (tbody : List (Nat × Row)) (row : Nat × Row) : List (Nat × Row) :=
  tbody.erase row ++ [row]

/-- `sortTable(table, columnIndex, sortType)` on the rows of the table body:
the rows of the body afterwards, `none` when the comparator throws (the body is
then as before). A call without `sortType` is a call with `text`. -/
def sortTable (P : Platform) (tbody : List Row) (columnIndex : Nat) (sortType : String) :
    Option (List Row) := do
  let rows := tbody.enum
  let sorted ← jsSort (fun a b => compareRows P columnIndex sortType a.2 b.2) rows
  pure ((sorted.foldl appendChild rows).map Prod.snd)

/-- The rows of the table body after a call of `sortTable`, whether the call
returns or throws: the rows are moved after the sort has returned, so an
exception leaves them as they were. -/
def rowsAfterSortTable (P : Platform) (tbody : List Row) (columnIndex : Nat)
    (sortType : String) : List Row :=
  match sortTable P tbody columnIndex sortType with
  | some rows => rows
  | none => tbody

/-- `filterTable(table, filterValue)` on the rows of the table body. -/
def filterTable (P : Platform) (tbody : List Row) (filterValue : String) : List Row :=
  tbody.map (fun row =>
    let text := P.toLowerCase row.textContent
    let isMatch := includes text (P.toLowerCase filterValue)
    { row with display := if isMatch then "" else "none" })

/-- Comparison of two strings by code point: negative, zero or positive. -/
def compareCodePoints : List Char → List Char → Int
  | [], [] => 0
  | [], _ :: _ => -1
  | _ :: _, [] => 1
  | a :: as, b :: bs =>
    if a.val < b.val then -1 else if b.val < a.val then 1 else compareCodePoints as bs

/-- A platform for worked examples: `parseFloat` and `Date` know the literals
`10`, `2` and `33`, `localeCompare` orders strings by code point,
`toLowerCase` and `encodeURIComponent` return their argument, and every exotic
selector is a syntax error. -/
def samplePlatform : Platform where
  parseFloat := fun s =>
    if s = "10" then .fin 10 else if s = "2" then .fin 2
    else if s = "33" then .fin 33 else .nan
  dateValue := fun _ => .nan
  localeCompare := fun a b => compareCodePoints a.data b.data
  toLowerCase := fun s => s
  encodeURIComponent := fun s => s
  exoticSelector := fun _ _ => .syntaxError

/-- Order of two numbers; `NaN` is in no order with anything. -/
def JSNumber.le : JSNumber → JSNumber → Prop
  | .nan, _ => False
  | _, .nan => False
  | .negInf, _ => True
  | _, .posInf => True
  | .fin a, .fin b => a ≤ b
  | _, _ => False

/-! ## Draft persistence -/

/-- The entries of `new FormData(form)`: name and value of every control with
a non-empty name, in tree order. -/
def formDataEntries (form : List Field) : List (String × String) :=
  form.filterMap (fun f =>
    match f.name with
    | some n => if n = "" then none else some (n, f.value)
    | none => none)

/-- `data[key] = value` on an object created by `{}`, given by its own
properties in creation order. An assignment to `__proto__` with a string value
goes to the setter of `Object.prototype`, which ignores it. -/
def objSet (data : List (String × String)) (key value : String) : List (String × String) :=
  if key = "__proto__" then data
  else if data.any (fun kv => kv.1 == key) then
    data.map (fun kv => if kv.1 = key then (key, value) else kv)
  else data ++ [(key, value)]

/-- `data[key]` for an own property, `none` for `undefined`. -/
def objGet (data : List (String × String)) (key : String) : Option String :=
  match data with
  | [] => none
  | kv :: rest => if kv.1 = key then some kv.2 else objGet rest key

/-- The value of a string of decimal digits. -/
def digitsValue (cs : List Char) : Nat :=
  cs.foldl (fun n c => 10 * n + (c.toNat - 48)) 0

/-- The array index that a property key stands for, if it is the canonical
decimal form of an integer below `2^32 - 1`. -/
def arrayIndex? (key : String) : Option Nat :=
  let cs := key.data
  if cs ≠ [] ∧ cs.all Char.isDigit = true ∧ (cs.head? ≠ some '0' ∨ cs.length = 1) ∧
      digitsValue cs < 4294967295 then
    some (digitsValue cs)
  else none

/-- `Object.keys(data)`: the keys that are array indices in ascending numeric
order, then the other keys in creation order. -/
def objectKeys (data : List (String × String)) : List String :=
  let keys := data.map Prod.fst
  (keys.filter (fun k => (arrayIndex? k).isSome)).insertionSort
      (fun a b => (arrayIndex? a).getD 0 ≤ (arrayIndex? b).getD 0) ++
    keys.filter (fun k => (arrayIndex? k).isNone)

/-- The loop `for (let [key, value] of formData.entries()) data[key] = value`
starting from `data = {}`. -/
def draftData (form : List Field) : List (String × String) :=
  (formDataEntries form).foldl (fun data kv => objSet data kv.1 kv.2) []

/-- A string held by local storage, given by what `JSON.parse` makes of it: the
serialisation of an object whose values are strings (`JSON.stringify` of such
an object parses back to it), or a text that `JSON.parse` rejects. Valid JSON
of another shape is not part of the model. -/
inductive StoredText where
  | json (data : List (String × String))
  | malformed (text : String)
deriving DecidableEq, Repr

/-- Truthiness of a stored string: only the empty string is falsy, and the
serialisation of an object is never empty. -/
def StoredText.truthy : StoredText → Bool
  | .json _ => true
  | .malformed text => text != ""

/-- `localStorage.getItem(key)`, `none` for `null`. -/
def getItem (storage : List (String × StoredText)) (key : String) : Option StoredText :=
  match storage with
  | [] => none
  | kv :: rest => if kv.1 = key then some kv.2 else getItem rest key

/-- `localStorage.removeItem(key)`. -/
def removeItem (storage : List (String × StoredText)) (key : String) :
    List (String × StoredText) :=
  storage.filter (fun kv => kv.1 != key)

/-- `localStorage.setItem(key, value)`. -/
def setItem (storage : List (String × StoredText)) (key : String) (value : StoredText) :
    List (String × StoredText) :=
  removeItem storage key ++ [(key, value)]

/-- The state that draft persistence works on: the fields of one auto-save
form, local storage, and what has been written so far to the log of
`localStorage.setItem` calls, to the console and as notifications. -/
structure DraftPage where
  form : List Field
  storage : List (String × StoredText)
  writes : List (String × StoredText)
  console : List String
  alerts : List (String × String)
deriving DecidableEq, Repr

/-- Whether a key stands for itself inside the quoted string of the selector
`[name="..."]`: it holds no double quote, backslash, line feed, carriage
return, form feed or null character. -/
def plainKey (key : String) : Bool :=
  key.data.all (fun c =>
    c.toNat != 0x22 && c.toNat != 0x5C && c.toNat != 0xA && c.toNat != 0xD &&
    c.toNat != 0xC && c.toNat != 0)

/-- The position of the first field whose `name` attribute is `key`. -/
def firstNamed (key : String) : List Field → Option Nat
  | [] => none
  | f :: fs => if f.name = some key then some 0 else (firstNamed key fs).map (· + 1)

/-- `form.querySelector('[name="' + key + '"]')`. -/
def querySelectorName (P : Platform) (form : List Field) (key : String) : Lookup :=
  if plainKey key then
    match firstNamed key form with
    | some i => .found i
    | none => .notFound
  else P.exoticSelector key form

/-- `field.value = value` for the field at position `i`. -/
def setValueAt (value : String) : Nat → List Field → List Field
  | _, [] => []
  | 0, f :: fs => { f with value := value } :: fs
  | i + 1, f :: fs => f :: setValueAt value i fs

/-- The loop `Object.keys(data).forEach(key => ...)` of the draft loader over
the keys still to visit: the fields afterwards, and whether an exception left
the loop (the fields written before it stay written). -/
def restoreFields (P : Platform) (data : List (String × String)) :
    List String → List Field → List Field × Bool
  | [], form => (form, false)
  | key :: keys, form =>
    match querySelectorName P form key with
    | .syntaxError => (form, true)
    | .notFound => restoreFields P data keys form
    | .found i => restoreFields P data keys (setValueAt (templateText (objGet data key)) i form)

/-- The block `// Load saved draft` of the `DOMContentLoaded` handler. -/
def loadDraft (P : Platform) (formId : String) (page : DraftPage) : DraftPage :=
  match getItem page.storage ("draft_" ++ formId) with
  | none => page
  | some savedData =>
    if savedData.truthy then
      match savedData with
      | .malformed _ => { page with console := page.console ++ ["Failed to load form draft"] }
      | .json data =>
        match restoreFields P data (objectKeys data) page.form with
        | (form, false) => { page with form := form }
        | (form, true) =>
          { page with form := form, console := page.console ++ ["Failed to load form draft"] }
    else page

/-- The function handed to `debounce` by the block `// Save draft on input`. -/
def saveDraft (formId : String) (page : DraftPage) : DraftPage :=
  let value := StoredText.json (draftData page.form)
  { page with
    storage := setItem page.storage ("draft_" ++ formId) value
    writes := page.writes ++ [("draft_" ++ formId, value)] }

/-- The two `submit` listeners of an auto-save form, in the order they were
added: the validation listener, then the listener that clears the draft.
`valid` is the answer of `form.checkValidity()`. -/
def submitListeners (formId : String) (valid : Bool) (page : DraftPage) : DraftPage :=
  let page1 :=
    if valid then page
    else { page with
      alerts := page.alerts ++ [("Please fill in all required fields correctly", "warning")] }
  { page1 with storage := removeItem page1.storage ("draft_" ++ formId) }

/-- A field after the draft loader has visited `keys`, when no selector
fails: a field whose name is among the keys has the value stored under it. -/
def restored (data : List (String × String)) (keys : List String) (f : Field) : Field :=
  match f.name with
  | some k => if k ∈ keys then { f with value := templateText (objGet data k) } else f
  | none => f

/-- The round trip as the specification words it: of the fields found at load
time (`fresh`), each one whose name is present in the draft saved from `saved`
has the value that the field at the same place had when the draft was saved,
and each other field keeps its value. -/
def roundTripExpected (saved fresh : List Field) : List Field :=
  List.zipWith (fun s f =>
    match s.name with
    | some k => if (objGet (draftData saved) k).isSome then { f with value := s.value } else f
    | none => f) saved fresh

/-! ## Draft persistence on a form with file inputs -/

/-- The kind of a control, as far as the draft loader tells controls apart: a
text control, or an `input type="file"`, whose value can only be set to the
empty string (any other string raises `InvalidStateError`). -/
inductive ControlKind where
  | text
  | file
deriving DecidableEq, Repr

/-- The entries of `new FormData(form)` as the loader gets them back from
`JSON.parse(JSON.stringify(data))`, each value given by the string it converts
to when it is assigned to `field.value`. `kinds` gives the kind of each
control of `form`. A text control contributes its value. A file input
contributes a `File` (also when no file is chosen), which is serialised as an
object without properties and so comes back as `[object Object]`. -/
def controlEntries (kinds : List ControlKind) (form : List Field) : List (String × String) :=
  (List.zip kinds form).filterMap (fun c =>
    match c.2.name with
    | some n =>
      if n = "" then none
      else some (n, match c.1 with
        | .text => c.2.value
        | .file => "[object Object]")
    | none => none)

/-- The draft object of a form with controls of the given kinds, as the loader
gets it back. -/
def controlDraftData (kinds : List ControlKind) (form : List Field) : List (String × String) :=
  (controlEntries kinds form).foldl (fun data kv => objSet data kv.1 kv.2) []

/-- The loop of the draft loader on a form with controls of the given kinds:
as `restoreFields`, and the assignment of a non-empty string to a file input
is an exception that leaves the loop. -/
def restoreControls (P : Platform) (kinds : List ControlKind) (data : List (String × String)) :
    List String → List Field → List Field × Bool
  | [], form => (form, false)
  | key :: keys, form =>
    match querySelectorName P form key with
    | .syntaxError => (form, true)
    | .notFound => restoreControls P kinds data keys form
    | .found i =>
      if kinds.get? i = some .file ∧ templateText (objGet data key) ≠ "" then (form, true)
      else restoreControls P kinds data keys (setValueAt (templateText (objGet data key)) i form)

/-! ## Debounce -/

/-- The state of one function returned by `debounce(func, wait)`: the timer
that variable `timeout` refers to while it is pending, given by the time it is
due and the arguments that its callback `later` has captured. -/
structure Debounced (α : Type) where
  timeout : Option (Nat × α)
deriving DecidableEq, Repr

/-- A call of `executedFunction(...args)` at time `now`: `clearTimeout(timeout)`,
then `timeout = setTimeout(later, wait)`. -/
def Debounced.call {α : Type} (wait now : Nat) (args : α) (_d : Debounced α) : Debounced α :=
  ⟨some (now + wait, args)⟩

/-- The event loop runs the timers at time `now`: a pending timer that is due
runs `later`, which calls `func(...args)`; the arguments of that call are
returned. A timer never runs before it is due. -/
def Debounced.fire {α : Type} (now : Nat) (d : Debounced α) : Debounced α × Option α :=
  match d.timeout with
  | some (due, args) => if due ≤ now then (⟨none⟩, some args) else (d, none)
  | none => (d, none)

/-- What happens to a debounced function: it is called, or the event loop runs
the timers. -/
inductive DebounceEvent (α : Type) where
  | call (time : Nat) (args : α)
  | tick (time : Nat)
deriving DecidableEq, Repr

/-- The time of an event. -/
def DebounceEvent.time {α : Type} : DebounceEvent α → Nat
  | .call t _ => t
  | .tick t => t

/-- An entry of the log of a run: the debounced function was called, or `func`
was invoked. -/
inductive DebounceLog (α : Type) where
  | called (args : α)
  | invoked (args : α)
deriving DecidableEq, Repr

/-- One event of a run of `debounce(func, wait)`. -/
def debounceStep {α : Type} (wait : Nat) (s : Debounced α × List (DebounceLog α)) :
    DebounceEvent α → Debounced α × List (DebounceLog α)
  | .call t args => (s.1.call wait t args, s.2 ++ [.called args])
  | .tick t =>
    match s.1.fire t with
    | (d, some args) => (d, s.2 ++ [.invoked args])
    | (d, none) => (d, s.2)

/-- A run of `debounce(func, wait)` from a given state and log. -/
def debounceRunFrom {α : Type} (wait : Nat) (s : Debounced α × List (DebounceLog α))
    (events : List (DebounceEvent α)) : Debounced α × List (DebounceLog α) :=
  events.foldl (debounceStep wait) s

/-- A run of a freshly made `debounce(func, wait)`. -/
def debounceRun {α : Type} (wait : Nat) (events : List (DebounceEvent α)) :
    Debounced α × List (DebounceLog α) :=
  debounceRunFrom wait (⟨none⟩, []) events

/-- The calls of a run: time and arguments. -/
def callsOf {α : Type} (events : List (DebounceEvent α)) : List (Nat × α) :=
  events.filterMap (fun e =>
    match e with
    | .call t args => some (t, args)
    | .tick _ => none)

/-! ## Events of a page with an auto-save form -/

/-- What happens on a page with an auto-save form after `DOMContentLoaded`.
The fields change through edits of the user, and every edit dispatches
`input`. -/
inductive PageEvent where
  /-- the user edits the form, which leaves its fields as given, and the
  `input` event reaches the form -/
  | input (time : Nat) (form : List Field)
  /-- the `submit` event reaches the form; `valid` is what `checkValidity` says -/
  | submit (time : Nat) (valid : Bool)
  /-- the event loop runs the timers -/
  | tick (time : Nat)
deriving DecidableEq, Repr

/-- The time of a page event. -/
def PageEvent.time : PageEvent → Nat
  | .input t _ => t
  | .submit t _ => t
  | .tick t => t

/-- A page together with the state of its debounced save function. -/
structure PageState where
  page : DraftPage
  timer : Debounced Unit
deriving DecidableEq, Repr

/-- One event on a page whose auto-save form has the id `formId`; the save
function is `debounce(..., 1000)`. -/
def pageStep (formId : String) (s : PageState) : PageEvent → PageState
  | .input t form =>
    { page := { s.page with form := form }, timer := s.timer.call 1000 t () }
  | .submit _ valid =>
    { s with page := submitListeners formId valid s.page }
  | .tick t =>
    match s.timer.fire t with
    | (d, some _) => { page := saveDraft formId s.page, timer := d }
    | (d, none) => { s with timer := d }

/-- The events of a page in order, from a given state. -/
def pageRunFrom (formId : String) (s : PageState) (events : List PageEvent) : PageState :=
  events.foldl (pageStep formId) s

/-- The events of a page in order, from the state after `DOMContentLoaded`. -/
def pageRun (formId : String) (page : DraftPage) (events : List PageEvent) : PageState :=
  pageRunFrom formId ⟨page, ⟨none⟩⟩ events

/-- The forms left by the `input` events of a run, with their times. -/
def inputsOf (events : List PageEvent) : List (Nat × List Field) :=
  events.filterMap (fun e =>
    match e with
    | .input t form => some (t, form)
    | _ => none)

/-! ## Dynamic form fields: `addSubject`, `removeSubject` -/

/-- The names of the four fields of a subject entry that `addSubject` created
with the given index. -/
def subjectFieldNames (index : Nat) : List String :=
  ["subjects[" ++ toString index ++ "][name]",
   "subjects[" ++ toString index ++ "][tutor_id]",
   "subjects[" ++ toString index ++ "][sessions_per_week]",
   "subjects[" ++ toString index ++ "][duration]"]

/-- `addSubject()` on the children of `#subjectsContainer`, each given by the
index in its field names: the new entry takes `container.children.length` as
its index and becomes the last child. -/
def addSubject (container : List Nat) : List Nat :=
  container ++ [container.length]

/-- `removeSubject(button)` for the button of the entry at `position`: the
entry leaves the container. -/
def removeSubject (position : Nat) (container : List Nat) : List Nat :=
  container.eraseIdx position

/-- A call of `addSubject` or of `removeSubject`. -/
inductive SubjectCall where
  | add
  | remove (position : Nat)
deriving DecidableEq, Repr

/-- A sequence of calls on a container. -/
def runSubjectCalls (calls : List SubjectCall) (container : List Nat) : List Nat :=
  calls.foldl (fun c call =>
    match call with
    | .add => addSubject c
    | .remove position => removeSubject position c) container

/-! ## Input validation (`main.js`): `validateInput` -/

/-- An `input` element as `validateInput` sees it: its value and type, whether
its class list holds `error`, and the texts of the `.error-message` elements
inside its parent, in tree order. -/
structure InputElement where
  value : String
  type : String
  hasErrorClass : Bool
  errorMessages : List String
deriving DecidableEq, Repr

/-- An item of a regular expression: one character of a class, or one or more
characters of a class. -/
inductive RegexItem where
  | one (p : Char → Bool)
  | many1 (p : Char → Bool)

/-- Whether a sequence of items matches the whole of a string (a pattern
between `^` and `$`), by backtracking. -/
def matchItems : List RegexItem → List Char → Bool
  | [], s => s.isEmpty
  | _ :: _, [] => false
  | .one p :: r, c :: s => p c && matchItems r s
  | .many1 p :: r, c :: s => p c && (matchItems r s || matchItems (.many1 p :: r) s)

/-- The class `[^\s@]`; `\s` is the white space that `trim` strips. -/
def notSpaceNorAt (c : Char) : Bool :=
  !isJsWhitespace c && c != '@'

/-- The pattern of `emailRegex` between its anchors: `[^\s@]+@[^\s@]+\.[^\s@]+`. -/
def emailRegex : List RegexItem :=
  [.many1 notSpaceNorAt, .one (fun c => c == '@'), .many1 notSpaceNorAt,
   .one (fun c => c == '.'), .many1 notSpaceNorAt]

/-- `emailRegex.test(value)`. -/
def emailRegexTest (value : String) : Bool :=
  matchItems emailRegex value.data

/-- `showInputError(input, message)`: the class `error` is added, the first
error message inside the parent is removed and the new one is appended. -/
def showInputError (input : InputElement) (message : String) : InputElement :=
  { input with
    hasErrorClass := true
    errorMessages := input.errorMessages.drop 1 ++ [message] }

/-- `clearInputError(input)`: the class `error` is removed, and so is the first
error message inside the parent. -/
def clearInputError (input : InputElement) : InputElement :=
  { input with
    hasErrorClass := false
    errorMessages := input.errorMessages.drop 1 }

/-- `validateInput(input)`: the returned value and the element afterwards. -/
def validateInput (input : InputElement) : Bool × InputElement :=
  let value := jsTrim input.value
  if value = "" then
    (false, showInputError input "This field is required")
  else if input.type = "email" then
    if emailRegexTest value then (true, clearInputError input)
    else (false, showInputError input "Please enter a valid email address")
  else (true, clearInputError input)

/-! ## Number animation (`main.js`): `animateNumbers` -/

/-- The state of the closure `updateNumber` of one stat element: the variable
`current`, the values assigned to `stat.textContent` so far, the number of
calls of `updateNumber` so far, and whether a further call is due (the first
one from the observer, the later ones from `requestAnimationFrame`). -/
structure Counter where
  current : ℚ
  shown : List Int
  frames : Nat
  running : Bool
deriving DecidableEq

/-- The constant `step`: `target / (duration / 16)`. Floating-point arithmetic
is the exact operation followed by `round`, the rounding to a representable
number. -/
def counterStep (round : ℚ → ℚ) (target : Nat) : ℚ :=
  round ((target : ℚ) / round (1500 / 16))

/-- One call of `updateNumber`. -/
def updateNumber (round : ℚ → ℚ) (target : Nat) (s : Counter) : Counter :=
  let current := round (s.current + counterStep round target)
  if current < (target : ℚ) then
    { current := current
      shown := s.shown ++ [Int.floor current]
      frames := s.frames + 1
      running := true }
  else
    { current := current
      shown := s.shown ++ [(target : Int)]
      frames := s.frames + 1
      running := false }

/-- One animation frame: `updateNumber` runs if a call is due. -/
def animationFrame (round : ℚ → ℚ) (target : Nat) (s : Counter) : Counter :=
  if s.running then updateNumber round target s else s

/-- The counter of a stat element with the given target, `n` animation frames
after it came into view. -/
def animateNumber (round : ℚ → ℚ) (target : Nat) : Nat → Counter
  | 0 => { current := 0, shown := [], frames := 0, running := true }
  | n + 1 => animationFrame round target (animateNumber round target n)

/-- What the proofs on the counter need from `round`, the rounding of an exact
result to a representable number: it is monotone, it leaves its own results,
zero, `1500 / 16` and the target as they are, and on the range that the counter
works in it returns no less than `x * (1 - ε)`, for an `ε` of at most
`1 / 100000` (for double precision `ε` is `2 ^ (-53)`). -/
structure RoundsWell (round : ℚ → ℚ) (ε : ℚ) (target : Nat) : Prop where
  mono : ∀ x y, x ≤ y → round x ≤ round y
  idem : ∀ x, round (round x) = round x
  zero : round 0 = 0
  quotient : round (1500 / 16) = 1500 / 16
  target_exact : round (target : ℚ) = (target : ℚ)
  eps_nonneg : 0 ≤ ε
  eps_small : ε ≤ 1 / 100000
  error : ∀ x, 1 / 128 ≤ x → x ≤ 2 * (target : ℚ) → x * (1 - ε) ≤ round x

/-- The invariant of the counter after `n` frames. -/
structure CounterInv (round : ℚ → ℚ) (ε : ℚ) (target : Nat) (n : Nat) (s : Counter) :
    Prop where
  frames_le : s.frames ≤ n
  frames_eq : s.running = true → s.frames = n
  current_nonneg : 0 ≤ s.current
  current_exact : round s.current = s.current
  current_lt : s.running = true → 1 ≤ s.frames → s.current < (target : ℚ)
  current_zero : s.running = true → s.frames = 0 → s.current = 0
  lower : s.running = true →
    (s.frames : ℚ) * counterStep round target * (1 - (s.frames : ℚ) * ε) ≤ s.current
  shown_range : ∀ v ∈ s.shown, 0 ≤ v ∧ v ≤ (target : Int)
  shown_le : s.running = true → ∀ v ∈ s.shown, (v : ℚ) ≤ s.current
  shown_sorted : s.shown.Pairwise (· ≤ ·)
  shown_last : s.running = false → s.shown.getLast? = some (target : Int)
  shown_length : s.shown.length = s.frames


/-! ## Lemmas on strings -/

theorem includesFrom_iff (needle text : List Char) :
    includesFrom needle text = true ↔ needle <:+: text := by
  induction text with
  | nil =>
    simp only [includesFrom, List.isPrefixOf_iff_prefix, List.prefix_nil, List.infix_nil]
  | cons c cs ih =>
    simp only [includesFrom, Bool.or_eq_true, List.isPrefixOf_iff_prefix, ih,
      List.infix_cons_iff]

theorem includes_iff (text needle : String) :
    includes text needle = true ↔ ∃ pre post, text.data = pre ++ needle.data ++ post := by
  unfold includes
  rw [includesFrom_iff]
  constructor
  · rintro ⟨pre, post, h⟩
    exact ⟨pre, post, h.symm⟩
  · rintro ⟨pre, post, h⟩
    exact ⟨pre, post, h.symm⟩

theorem foldl_append_init (l : List String) (a : String) :
    l.foldl (fun r s => r ++ s) a = a ++ l.foldl (fun r s => r ++ s) "" := by
  induction l generalizing a with
  | nil => simp
  | cons x xs ih =>
    simp only [List.foldl_cons]
    rw [ih (a ++ x), ih ("" ++ x)]
    simp [String.append_assoc]

theorem join_cons (x : String) (xs : List String) :
    String.join (x :: xs) = x ++ String.join xs := by
  unfold String.join
  simp only [List.foldl_cons]
  rw [foldl_append_init]
  simp

theorem join_append (xs ys : List String) :
    String.join (xs ++ ys) = String.join xs ++ String.join ys := by
  induction xs with
  | nil => simp [String.join]
  | cons x xs ih => simp [join_cons, ih, String.append_assoc]

/-! ## Lemmas on sorting -/

section SortLemmas

variable {α : Type} (cmp : α → α → Option JSNumber) (S : α → Prop) (le : α → α → Prop)

theorem insertSorted_spec
    (hcmp : ∀ a b, S a → S b → ∃ v, cmp a b = some v ∧ (v.isPositive = false ↔ le a b))
    (htotal : ∀ a b, S a → S b → le a b ∨ le b a)
    (htrans : ∀ a b c, S a → S b → S c → le a b → le b c → le a c)
    (x : α) (hx : S x) (l : List α) (hl : ∀ y ∈ l, S y) (hs : l.Pairwise le) :
    ∃ out, insertSorted cmp x l = some out ∧ out.Perm (x :: l) ∧ out.Pairwise le := by
  induction l with
  | nil => exact ⟨[x], rfl, List.Perm.refl _, List.pairwise_singleton _ _⟩
  | cons y ys ih =>
    have hy : S y := hl y (List.mem_cons_self _ _)
    have hys : ∀ z ∈ ys, S z := fun z hz => hl z (List.mem_cons_of_mem _ hz)
    obtain ⟨hyle, hsys⟩ := List.pairwise_cons.mp hs
    obtain ⟨v, hv, hiff⟩ := hcmp x y hx hy
    by_cases hp : v.isPositive = true
    · obtain ⟨rest, hrest, hperm, hpair⟩ := ih hys hsys
      refine ⟨y :: rest, ?_, ?_, ?_⟩
      · simp [insertSorted, hv, hp, hrest]
      · exact (List.Perm.cons y hperm).trans (List.Perm.swap x y ys)
      · refine List.pairwise_cons.mpr ⟨?_, hpair⟩
        intro w hw
        have hw2 : w ∈ x :: ys := hperm.mem_iff.mp hw
        rcases List.mem_cons.mp hw2 with rfl | hw3
        · have hnle : ¬ le w y := fun h => by
            have := hiff.mpr h
            rw [hp] at this
            exact Bool.noConfusion this
          rcases htotal w y hx hy with h | h
          · exact absurd h hnle
          · exact h
        · exact hyle w hw3
    · have hf : v.isPositive = false := by simpa using hp
      have hxy : le x y := hiff.mp hf
      refine ⟨x :: y :: ys, ?_, List.Perm.refl _, ?_⟩
      · simp [insertSorted, hv, hf]
      · refine List.pairwise_cons.mpr ⟨?_, hs⟩
        intro w hw
        rcases List.mem_cons.mp hw with rfl | hw3
        · exact hxy
        · exact htrans x y w hx hy (hys w hw3) hxy (hyle w hw3)

theorem jsSort_spec
    (hcmp : ∀ a b, S a → S b → ∃ v, cmp a b = some v ∧ (v.isPositive = false ↔ le a b))
    (htotal : ∀ a b, S a → S b → le a b ∨ le b a)
    (htrans : ∀ a b c, S a → S b → S c → le a b → le b c → le a c)
    (l : List α) (hl : ∀ y ∈ l, S y) :
    ∃ out, jsSort cmp l = some out ∧ out.Perm l ∧ out.Pairwise le := by
  induction l with
  | nil => exact ⟨[], rfl, List.Perm.refl _, List.Pairwise.nil⟩
  | cons x xs ih =>
    obtain ⟨sorted, hsorted, hperm, hpair⟩ := ih (fun y hy => hl y (List.mem_cons_of_mem _ hy))
    have hS : ∀ y ∈ sorted, S y := fun y hy =>
      hl y (List.mem_cons_of_mem _ (hperm.mem_iff.mp hy))
    obtain ⟨out, hout, hperm2, hpair2⟩ :=
      insertSorted_spec cmp S le hcmp htotal htrans x (hl x (List.mem_cons_self _ _))
        sorted hS hpair
    refine ⟨out, ?_, hperm2.trans (List.Perm.cons x hperm), hpair2⟩
    simp [jsSort, hsorted, hout]

end SortLemmas

theorem foldl_appendChild_aux (s acc : List (Nat × Row))
    (hs : s.Nodup) (hacc : acc.Nodup) (hsub : ∀ r ∈ s, r ∈ acc) :
    s.foldl appendChild acc = acc.filter (fun r => decide (r ∉ s)) ++ s := by
  induction s generalizing acc with
  | nil => simp
  | cons x xs ih =>
    obtain ⟨hx, hxs⟩ := List.nodup_cons.mp hs
    have hxacc : x ∈ acc := hsub x (List.mem_cons_self _ _)
    have hacc2 : (appendChild acc x).Nodup := by
      unfold appendChild
      apply List.Nodup.append (hacc.erase x) (List.nodup_singleton x)
      intro a ha hb
      rw [List.mem_singleton] at hb
      subst hb
      exact (List.Nodup.not_mem_erase hacc) ha
    have hsub2 : ∀ r ∈ xs, r ∈ appendChild acc x := by
      intro r hr
      unfold appendChild
      have hne : r ≠ x := fun h => hx (h ▸ hr)
      exact List.mem_append_left _
        ((List.mem_erase_of_ne hne).mpr (hsub r (List.mem_cons_of_mem _ hr)))
    rw [List.foldl_cons, ih (appendChild acc x) hxs hacc2 hsub2]
    unfold appendChild
    rw [List.filter_append, hacc.erase_eq_filter x, List.filter_filter]
    have h1 : List.filter (fun r => decide (r ∉ xs)) [x] = [x] := by
      simp [hx]
    rw [h1, List.append_assoc, List.singleton_append]
    congr 1
    apply List.filter_congr
    intro r _
    by_cases hrx : r = x
    · subst hrx; simp
    · simp [hrx]

theorem foldl_appendChild (rows sorted : List (Nat × Row))
    (hrows : rows.Nodup) (hperm : sorted.Perm rows) :
    sorted.foldl appendChild rows = sorted := by
  rw [foldl_appendChild_aux sorted rows (hperm.nodup_iff.mpr hrows) hrows
    (fun r hr => hperm.mem_iff.mp hr)]
  have : rows.filter (fun r => decide (r ∉ sorted)) = [] := by
    rw [List.filter_eq_nil_iff]
    intro r hr
    simpa using hperm.mem_iff.mpr hr
  rw [this, List.nil_append]

theorem nodup_enum (l : List Row) : l.enum.Nodup := by
  have h : (l.enum.map Prod.fst).Nodup := by
    rw [List.enum_map_fst]
    exact List.nodup_range _
  exact List.Nodup.of_map _ h

/-- The rows after `sortTable`, for a comparator that is defined and consistent
on the rows of the body: the call returns, the rows are the old rows in an
order that `le` accepts. -/
theorem sortTable_spec (P : Platform) (columnIndex : Nat) (sortType : String)
    (S : Row → Prop) (le : Row → Row → Prop)
    (hcmp : ∀ a b, S a → S b → ∃ v, compareRows P columnIndex sortType a b = some v ∧
      (v.isPositive = false ↔ le a b))
    (htotal : ∀ a b, S a → S b → le a b ∨ le b a)
    (htrans : ∀ a b c, S a → S b → S c → le a b → le b c → le a c)
    (tbody : List Row) (hl : ∀ r ∈ tbody, S r) :
    ∃ out, sortTable P tbody columnIndex sortType = some out ∧ out.Perm tbody ∧
      out.Pairwise le := by
  obtain ⟨sorted, hsorted, hperm, hpair⟩ :=
    jsSort_spec (fun a b : Nat × Row => compareRows P columnIndex sortType a.2 b.2)
      (fun a => S a.2) (fun a b => le a.2 b.2)
      (fun a b ha hb => hcmp a.2 b.2 ha hb)
      (fun a b ha hb => htotal a.2 b.2 ha hb)
      (fun a b c ha hb hc => htrans a.2 b.2 c.2 ha hb hc)
      tbody.enum (fun y hy => hl y.2 (by
        have := List.mem_map_of_mem Prod.snd hy
        rwa [List.enum_map_snd] at this))
  refine ⟨sorted.map Prod.snd, ?_, ?_, ?_⟩
  · simp [sortTable, hsorted, foldl_appendChild _ _ (nodup_enum tbody) hperm]
  · have := hperm.map Prod.snd
    rwa [List.enum_map_snd] at this
  · exact List.pairwise_map.mpr hpair

theorem insertSorted_perm {α : Type} (cmp : α → α → Option JSNumber) (x : α) (l out : List α)
    (h : insertSorted cmp x l = some out) : out.Perm (x :: l) := by
  induction l generalizing out with
  | nil =>
    simp only [insertSorted, Option.some.injEq] at h
    subst h
    exact List.Perm.refl _
  | cons y ys ih =>
    cases hv : cmp x y with
    | none => simp [insertSorted, hv] at h
    | some v =>
      by_cases hp : v.isPositive = true
      · cases hrest : insertSorted cmp x ys with
        | none => simp [insertSorted, hv, hp, hrest] at h
        | some rest =>
          simp only [insertSorted, hv, hp, hrest, Option.bind_eq_bind, Option.some_bind,
            if_true, Option.pure_def, Option.some.injEq] at h
          subst h
          exact (List.Perm.cons y (ih rest hrest)).trans (List.Perm.swap x y ys)
      · simp only [insertSorted, hv, hp, Option.bind_eq_bind, Option.some_bind,
          Option.pure_def, Option.some.injEq] at h
        simp only [Bool.false_eq_true, if_false] at h
        rw [← Option.some.inj h]

theorem jsSort_perm {α : Type} (cmp : α → α → Option JSNumber) (l out : List α)
    (h : jsSort cmp l = some out) : out.Perm l := by
  induction l generalizing out with
  | nil =>
    simp only [jsSort, Option.some.injEq] at h
    subst h
    exact List.Perm.refl _
  | cons x xs ih =>
    cases hs : jsSort cmp xs with
    | none => simp [jsSort, hs] at h
    | some sorted =>
      simp only [jsSort, hs, Option.bind_eq_bind, Option.some_bind] at h
      exact (insertSorted_perm cmp x sorted out h).trans (List.Perm.cons x (ih sorted hs))

theorem cellText_of_lt (r : Row) (columnIndex : Nat) (h : columnIndex < r.cells.length) :
    ∃ t, cellText r columnIndex = some t := by
  unfold cellText
  cases hget : r.cells.get? columnIndex with
  | none =>
    rw [List.get?_eq_none] at hget
    omega
  | some t => exact ⟨jsTrim t, rfl⟩

theorem sub_isPositive_iff (u w : JSNumber) (hu : u ≠ .nan) (hw : w ≠ .nan) :
    (u.sub w).isPositive = false ↔ u.le w := by
  cases u <;> cases w <;>
    simp_all [JSNumber.sub, JSNumber.isPositive, JSNumber.le]

theorem jsLe_total (u w : JSNumber) (hu : u ≠ .nan) (hw : w ≠ .nan) :
    u.le w ∨ w.le u := by
  cases u <;> cases w <;> simp_all [JSNumber.le]
  exact le_total _ _

theorem jsLe_trans (u v w : JSNumber) (h1 : u.le v) (h2 : v.le w) : u.le w := by
  cases u <;> cases v <;> cases w <;> simp_all [JSNumber.le]
  exact le_trans h1 h2

/-! ## Lemmas on the comparison by code point -/

theorem compareCodePoints_total (a b : List Char) :
    compareCodePoints a b ≤ 0 ∨ compareCodePoints b a ≤ 0 := by
  induction a generalizing b with
  | nil =>
    cases b with
    | nil => left; simp [compareCodePoints]
    | cons y ys => left; simp [compareCodePoints]
  | cons x xs ih =>
    cases b with
    | nil => right; simp [compareCodePoints]
    | cons y ys =>
      simp only [compareCodePoints]
      by_cases h1 : x.val < y.val
      · left; simp [h1]
      · by_cases h2 : y.val < x.val
        · right; simp [h2]
        · simp only [h1, h2, if_false]
          exact ih ys

theorem u32_lt_iff (u v : UInt32) : u < v ↔ u.toNat < v.toNat := Iff.rfl

theorem compareCodePoints_trans (a b c : List Char)
    (hab : compareCodePoints a b ≤ 0) (hbc : compareCodePoints b c ≤ 0) :
    compareCodePoints a c ≤ 0 := by
  induction a generalizing b c with
  | nil =>
    cases c with
    | nil => simp [compareCodePoints]
    | cons z zs => simp [compareCodePoints]
  | cons x xs ih =>
    cases b with
    | nil => simp [compareCodePoints] at hab
    | cons y ys =>
      cases c with
      | nil => simp [compareCodePoints] at hbc
      | cons z zs =>
        simp only [compareCodePoints, u32_lt_iff] at hab hbc ⊢
        by_cases hxy : x.val.toNat < y.val.toNat
        · by_cases hyz : y.val.toNat < z.val.toNat
          · have : x.val.toNat < z.val.toNat := by omega
            simp [this]
          · by_cases hzy : z.val.toNat < y.val.toNat
            · simp [hyz, hzy] at hbc
            · have : x.val.toNat < z.val.toNat := by omega
              simp [this]
        · by_cases hyx : y.val.toNat < x.val.toNat
          · simp [hxy, hyx] at hab
          · simp only [hxy, hyx, if_false] at hab
            by_cases hyz : y.val.toNat < z.val.toNat
            · have : x.val.toNat < z.val.toNat := by omega
              simp [this]
            · by_cases hzy : z.val.toNat < y.val.toNat
              · simp [hyz, hzy] at hbc
              · simp only [hyz, hzy, if_false] at hbc
                have h1 : ¬ x.val.toNat < z.val.toNat := by omega
                have h2 : ¬ z.val.toNat < x.val.toNat := by omega
                simp only [h1, h2, if_false]
                exact ih ys zs hab hbc

/-! ## Lemmas on draft persistence -/

theorem getItem_append_self (storage : List (String × StoredText)) (key : String)
    (value : StoredText) (h : getItem storage key = none) :
    getItem (storage ++ [(key, value)]) key = some value := by
  induction storage with
  | nil => simp [getItem]
  | cons kv rest ih =>
    simp only [getItem] at h
    by_cases hk : kv.1 = key
    · simp [hk] at h
    · simp only [hk, if_false] at h
      simp [getItem, hk, ih h]

theorem getItem_removeItem (storage : List (String × StoredText)) (key : String) :
    getItem (removeItem storage key) key = none := by
  induction storage with
  | nil => rfl
  | cons kv rest ih =>
    by_cases hk : kv.1 = key
    · simpa [removeItem, hk] using ih
    · simpa [removeItem, hk, getItem] using ih

theorem getItem_setItem (storage : List (String × StoredText)) (key : String)
    (value : StoredText) : getItem (setItem storage key value) key = some value :=
  getItem_append_self _ _ _ (getItem_removeItem storage key)

theorem firstNamed_none (key : String) (form : List Field) (h : firstNamed key form = none) :
    ∀ f ∈ form, f.name ≠ some key := by
  induction form with
  | nil => simp
  | cons f fs ih =>
    simp only [firstNamed] at h
    by_cases hf : f.name = some key
    · simp [hf] at h
    · simp only [hf, if_false, Option.map_eq_none'] at h
      intro g hg
      rcases List.mem_cons.mp hg with rfl | hg
      · exact hf
      · exact ih h g hg

theorem map_update_of_not_named (key value : String) (fs : List Field)
    (h : ∀ f ∈ fs, f.name ≠ some key) :
    fs.map (fun f => if f.name = some key then { f with value := value } else f) = fs := by
  induction fs with
  | nil => rfl
  | cons f fs ih =>
    have hf := h f (List.mem_cons_self _ _)
    simp only [List.map_cons, hf, if_false]
    rw [ih (fun g hg => h g (List.mem_cons_of_mem _ hg))]

theorem setValueAt_first (key value : String) (form : List Field) (i : Nat)
    (hfirst : firstNamed key form = some i) (hnodup : (form.filterMap Field.name).Nodup) :
    setValueAt value i form =
      form.map (fun f => if f.name = some key then { f with value := value } else f) := by
  induction form generalizing i with
  | nil => simp [firstNamed] at hfirst
  | cons f fs ih =>
    simp only [firstNamed] at hfirst
    by_cases hf : f.name = some key
    · simp only [hf, if_true, Option.some.injEq] at hfirst
      subst hfirst
      have hnot : ∀ g ∈ fs, g.name ≠ some key := by
        intro g hg hgk
        rw [List.filterMap_cons_some hf, List.nodup_cons] at hnodup
        exact hnodup.1 (List.mem_filterMap.mpr ⟨g, hg, hgk⟩)
      simp only [setValueAt, List.map_cons, hf, if_true]
      rw [map_update_of_not_named key value fs hnot]
    · simp only [hf, if_false, Option.map_eq_some'] at hfirst
      obtain ⟨j, hj, rfl⟩ := hfirst
      have hnodup2 : (fs.filterMap Field.name).Nodup := by
        cases hn : f.name with
        | none => rwa [List.filterMap_cons_none hn] at hnodup
        | some n =>
          rw [List.filterMap_cons_some hn, List.nodup_cons] at hnodup
          exact hnodup.2
      simp only [setValueAt, List.map_cons, hf, if_false]
      rw [ih j hj hnodup2]

theorem filterMap_name_map (g : Field → Field) (hg : ∀ f, (g f).name = f.name)
    (form : List Field) :
    (form.map g).filterMap Field.name = form.filterMap Field.name := by
  induction form with
  | nil => rfl
  | cons f fs ih =>
    cases hn : f.name with
    | none =>
      have : (g f).name = none := by rw [hg, hn]
      rw [List.map_cons, List.filterMap_cons_none this, List.filterMap_cons_none hn, ih]
    | some n =>
      have : (g f).name = some n := by rw [hg, hn]
      rw [List.map_cons, List.filterMap_cons_some this, List.filterMap_cons_some hn, ih]

theorem restored_name (data : List (String × String)) (keys : List String) (f : Field) :
    (restored data keys f).name = f.name := by
  unfold restored
  cases hn : f.name with
  | none => simp [hn]
  | some k =>
    by_cases hk : k ∈ keys
    · simp [hk, hn]
    · simp [hk, hn]

theorem restoreFields_plain (P : Platform) (data : List (String × String))
    (keys : List String) (form : List Field)
    (hplain : ∀ k ∈ keys, plainKey k = true)
    (hnodup : (form.filterMap Field.name).Nodup) :
    restoreFields P data keys form = (form.map (restored data keys), false) := by
  induction keys generalizing form with
  | nil =>
    simp only [restoreFields, Prod.mk.injEq, and_true]
    symm
    apply List.map_id''
    intro f
    unfold restored
    cases f.name <;> simp
  | cons key keys ih =>
    have hkey : plainKey key = true := hplain key (List.mem_cons_self _ _)
    have hkeys : ∀ k ∈ keys, plainKey k = true :=
      fun k hk => hplain k (List.mem_cons_of_mem _ hk)
    cases hfirst : firstNamed key form with
    | none =>
      simp only [restoreFields, querySelectorName, hkey, if_true, hfirst]
      rw [ih form hkeys hnodup]
      simp only [Prod.mk.injEq, and_true]
      apply List.map_congr_left
      intro f hf
      have hne := firstNamed_none key form hfirst f hf
      unfold restored
      cases hn : f.name with
      | none => rfl
      | some k =>
        have hk : k ≠ key := fun h => hne (by rw [hn, h])
        simp [hk]
    | some i =>
      simp only [restoreFields, querySelectorName, hkey, if_true, hfirst]
      rw [setValueAt_first key _ form i hfirst hnodup]
      rw [ih _ hkeys (by
        rw [filterMap_name_map _ _ form]
        · exact hnodup
        · intro f
          by_cases h : f.name = some key
          · simp [h]
          · simp [h])]
      simp only [Prod.mk.injEq, and_true, List.map_map]
      apply List.map_congr_left
      intro f _
      simp only [Function.comp]
      unfold restored
      cases hn : f.name with
      | none => simp [hn]
      | some k =>
        by_cases hk : k = key
        · subst hk
          by_cases hmem : k ∈ keys
          · simp [hn, hmem]
          · simp [hn, hmem]
        · by_cases hmem : k ∈ keys
          · simp [hn, hk, hmem]
          · simp [hn, hk, hmem]

theorem mem_objectKeys (data : List (String × String)) (k : String) :
    k ∈ objectKeys data ↔ k ∈ data.map Prod.fst := by
  unfold objectKeys
  rw [List.mem_append, (List.perm_insertionSort _ _).mem_iff, List.mem_filter, List.mem_filter]
  constructor
  · rintro (⟨h, _⟩ | ⟨h, _⟩) <;> exact h
  · intro h
    cases hi : arrayIndex? k with
    | none => right; exact ⟨h, by simp⟩
    | some n => left; exact ⟨h, by simp⟩

theorem objGet_isSome_iff (data : List (String × String)) (k : String) :
    (objGet data k).isSome = true ↔ k ∈ data.map Prod.fst := by
  induction data with
  | nil => simp [objGet]
  | cons kv rest ih =>
    by_cases h : kv.1 = k
    · simp [objGet, h]
    · simp only [objGet, h, if_false, ih, List.map_cons, List.mem_cons]
      constructor
      · intro h2; exact Or.inr h2
      · rintro (h2 | h2)
        · exact absurd h2.symm h
        · exact h2

theorem objGet_of_mem (data : List (String × String)) (k v : String)
    (hnodup : (data.map Prod.fst).Nodup) (hmem : (k, v) ∈ data) :
    objGet data k = some v := by
  induction data with
  | nil => simp at hmem
  | cons kv rest ih =>
    rw [List.map_cons, List.nodup_cons] at hnodup
    rcases List.mem_cons.mp hmem with h | h
    · subst h
      simp [objGet]
    · have hne : kv.1 ≠ k := by
        intro hk
        apply hnodup.1
        rw [hk]
        exact List.mem_map_of_mem Prod.fst h
      simp only [objGet, hne, if_false]
      exact ih hnodup.2 h

theorem foldl_objSet_nodup (entries acc : List (String × String))
    (hnodup : ((acc ++ entries).map Prod.fst).Nodup) :
    entries.foldl (fun data kv => objSet data kv.1 kv.2) acc =
      acc ++ entries.filter (fun kv => kv.1 != "__proto__") := by
  induction entries generalizing acc with
  | nil => simp
  | cons kv rest ih =>
    by_cases hproto : kv.1 = "__proto__"
    · have hn2 : ((acc ++ rest).map Prod.fst).Nodup := by
        refine hnodup.sublist (List.Sublist.map _ ?_)
        exact List.Sublist.append (List.Sublist.refl _) (List.sublist_cons_self _ _)
      have hstep : objSet acc kv.1 kv.2 = acc := by simp [objSet, hproto]
      rw [List.foldl_cons, hstep, ih acc hn2]
      simp [List.filter_cons, hproto]
    · have hnot : acc.any (fun x => x.1 == kv.1) = false := by
        rw [List.any_eq_false]
        intro x hx hxk
        simp only [beq_iff_eq] at hxk
        rw [List.map_append, List.nodup_append] at hnodup
        exact hnodup.2.2 (List.mem_map_of_mem Prod.fst hx)
          (by rw [hxk]; exact List.mem_map_of_mem Prod.fst (List.mem_cons_self _ _))
      have hstep : objSet acc kv.1 kv.2 = acc ++ [(kv.1, kv.2)] := by
        simp [objSet, hproto, hnot]
      rw [List.foldl_cons, hstep, ih (acc ++ [(kv.1, kv.2)]) (by simpa using hnodup)]
      simp [List.filter_cons, hproto]

theorem mem_formDataEntries (form : List Field) (k v : String) :
    (k, v) ∈ formDataEntries form ↔ ∃ f ∈ form, f.name = some k ∧ k ≠ "" ∧ f.value = v := by
  unfold formDataEntries
  rw [List.mem_filterMap]
  constructor
  · rintro ⟨f, hf, h⟩
    refine ⟨f, hf, ?_⟩
    cases hn : f.name with
    | none => simp [hn] at h
    | some n =>
      by_cases he : n = ""
      · simp [hn, he] at h
      · simp only [hn, he, if_false, Option.some.injEq, Prod.mk.injEq] at h
        obtain ⟨h1, h2⟩ := h
        subst h1
        exact ⟨rfl, he, h2⟩
  · rintro ⟨f, hf, hn, he, hv⟩
    exact ⟨f, hf, by simp [hn, he, hv]⟩

theorem formDataEntries_keys_sublist (form : List Field) :
    ((formDataEntries form).map Prod.fst).Sublist (form.filterMap Field.name) := by
  induction form with
  | nil => exact List.Sublist.refl _
  | cons f fs ih =>
    cases hn : f.name with
    | none =>
      have h1 : formDataEntries (f :: fs) = formDataEntries fs := by
        simp [formDataEntries, List.filterMap_cons, hn]
      rw [h1, List.filterMap_cons_none hn]
      exact ih
    | some n =>
      rw [List.filterMap_cons_some hn]
      by_cases he : n = ""
      · have h1 : formDataEntries (f :: fs) = formDataEntries fs := by
          simp [formDataEntries, List.filterMap_cons, hn, he]
        rw [h1]
        exact List.Sublist.cons _ ih
      · have h1 : formDataEntries (f :: fs) = (n, f.value) :: formDataEntries fs := by
          simp [formDataEntries, List.filterMap_cons, hn, he]
        rw [h1, List.map_cons]
        exact List.Sublist.cons₂ _ ih

theorem draftData_eq (form : List Field) (hnodup : (form.filterMap Field.name).Nodup) :
    draftData form = (formDataEntries form).filter (fun kv => kv.1 != "__proto__") := by
  unfold draftData
  rw [foldl_objSet_nodup _ [] (by
    rw [List.nil_append]
    exact hnodup.sublist (formDataEntries_keys_sublist form))]
  rfl

theorem draftData_keys_nodup (form : List Field) (hnodup : (form.filterMap Field.name).Nodup) :
    ((draftData form).map Prod.fst).Nodup := by
  rw [draftData_eq form hnodup]
  exact (hnodup.sublist (formDataEntries_keys_sublist form)).sublist
    (List.Sublist.map _ (List.filter_sublist _))

theorem draftData_get (form : List Field) (hnodup : (form.filterMap Field.name).Nodup)
    (f : Field) (hf : f ∈ form) (k : String) (hk : f.name = some k)
    (hsome : (objGet (draftData form) k).isSome = true) :
    objGet (draftData form) k = some f.value := by
  apply objGet_of_mem _ _ _ (draftData_keys_nodup form hnodup)
  rw [objGet_isSome_iff, List.mem_map] at hsome
  obtain ⟨⟨k2, v2⟩, hmem, hk2⟩ := hsome
  simp only at hk2
  subst hk2
  rw [draftData_eq form hnodup, List.mem_filter] at hmem ⊢
  obtain ⟨hmem, hproto⟩ := hmem
  refine ⟨?_, hproto⟩
  rw [mem_formDataEntries] at hmem ⊢
  obtain ⟨g, _, _, hne, _⟩ := hmem
  exact ⟨f, hf, hk, hne, rfl⟩

theorem restored_eq_expected (saved : List Field)
    (hnodup : (saved.filterMap Field.name).Nodup) (s fresh : List Field)
    (hnames : fresh.map Field.name = s.map Field.name) (hsub : ∀ x ∈ s, x ∈ saved) :
    fresh.map (restored (draftData saved) (objectKeys (draftData saved))) =
      List.zipWith (fun s f =>
        match s.name with
        | some k =>
          if (objGet (draftData saved) k).isSome then { f with value := s.value } else f
        | none => f) s fresh := by
  induction s generalizing fresh with
  | nil =>
    cases fresh with
    | nil => rfl
    | cons y ys => simp at hnames
  | cons x xs ih =>
    cases fresh with
    | nil => simp at hnames
    | cons y ys =>
      simp only [List.map_cons, List.cons.injEq] at hnames
      obtain ⟨hxy, hrest⟩ := hnames
      rw [List.map_cons, List.zipWith_cons_cons,
        ih ys hrest (fun z hz => hsub z (List.mem_cons_of_mem _ hz))]
      congr 1
      unfold restored
      cases hn : x.name with
      | none =>
        rw [hn] at hxy
        simp [hxy]
      | some k =>
        rw [hn] at hxy
        by_cases hsome : (objGet (draftData saved) k).isSome = true
        · have hmem : k ∈ objectKeys (draftData saved) := by
            rw [mem_objectKeys, ← objGet_isSome_iff]
            exact hsome
          have hget := draftData_get saved hnodup x (hsub x (List.mem_cons_self _ _)) k hn hsome
          simp [hxy, hmem, hsome, hget, templateText]
        · have hmem : k ∉ objectKeys (draftData saved) := by
            rw [mem_objectKeys, ← objGet_isSome_iff]
            exact hsome
          simp [hxy, hmem, hsome]

/-- On a form without file inputs the loop is the loop of `restoreFields`. -/
theorem restoreControls_text (P : Platform) (kinds : List ControlKind)
    (hkinds : ∀ k ∈ kinds, k = ControlKind.text) (data : List (String × String))
    (keys : List String) (form : List Field) :
    restoreControls P kinds data keys form = restoreFields P data keys form := by
  induction keys generalizing form with
  | nil => rfl
  | cons key keys ih =>
    have hno : ∀ i, kinds.get? i ≠ some ControlKind.file := by
      intro i hi
      have := hkinds _ (List.get?_mem hi)
      cases this
    cases hq : querySelectorName P form key with
    | syntaxError => simp [restoreControls, restoreFields, hq]
    | notFound => simp [restoreControls, restoreFields, hq, ih]
    | found i =>
      have h1 : ¬ (kinds.get? i = some ControlKind.file ∧
          templateText (objGet data key) ≠ "") := fun h => hno i h.1
      simp only [restoreControls, restoreFields, hq]
      rw [if_neg h1, ih]

/-- A form with a file input between two text controls: the draft saved from
`title = Hi`, an empty file input and `body = text` is loaded into the served
form. The loader restores `title`, the assignment to the file input raises an
exception, and `body` is left as served. -/
theorem file_input_stops_loader :
    controlDraftData [.text, .file, .text]
      [⟨some "title", "Hi"⟩, ⟨some "attachment", ""⟩, ⟨some "body", "text"⟩] =
      [("title", "Hi"), ("attachment", "[object Object]"), ("body", "text")] ∧
    restoreControls samplePlatform [.text, .file, .text]
      (controlDraftData [.text, .file, .text]
        [⟨some "title", "Hi"⟩, ⟨some "attachment", ""⟩, ⟨some "body", "text"⟩])
      (objectKeys (controlDraftData [.text, .file, .text]
        [⟨some "title", "Hi"⟩, ⟨some "attachment", ""⟩, ⟨some "body", "text"⟩]))
      [⟨some "title", ""⟩, ⟨some "attachment", ""⟩, ⟨some "body", ""⟩] =
      ([⟨some "title", "Hi"⟩, ⟨some "attachment", ""⟩, ⟨some "body", ""⟩], true) := by
  decide

/-! ## Lemmas on debounce -/

section DebounceLemmas

variable {α : Type}

theorem debounceRunFrom_cons (wait : Nat) (s : Debounced α × List (DebounceLog α))
    (e : DebounceEvent α) (events : List (DebounceEvent α)) :
    debounceRunFrom wait s (e :: events) = debounceRunFrom wait (debounceStep wait s e) events :=
  rfl

theorem debounceRunFrom_append (wait : Nat) (s : Debounced α × List (DebounceLog α))
    (es fs : List (DebounceEvent α)) :
    debounceRunFrom wait s (es ++ fs) = debounceRunFrom wait (debounceRunFrom wait s es) fs := by
  simp [debounceRunFrom, List.foldl_append]

theorem callsOf_tick (t : Nat) (events : List (DebounceEvent α)) :
    callsOf (DebounceEvent.tick t :: events) = callsOf events := rfl

theorem callsOf_call (t : Nat) (a : α) (events : List (DebounceEvent α)) :
    callsOf (DebounceEvent.call t a :: events) = (t, a) :: callsOf events := rfl

theorem mem_callsOf_time (events : List (DebounceEvent α)) (c : Nat × α)
    (h : c ∈ callsOf events) : ∃ e ∈ events, e.time = c.1 := by
  unfold callsOf at h
  rw [List.mem_filterMap] at h
  obtain ⟨e, he, hc⟩ := h
  cases e with
  | call t a =>
    simp only [Option.some.injEq] at hc
    subst hc
    exact ⟨_, he, rfl⟩
  | tick t => simp at hc

/-- With no timer pending, ticks change nothing. -/
theorem debounce_idle_ticks (wait : Nat) (log : List (DebounceLog α))
    (events : List (DebounceEvent α)) (h : callsOf events = []) :
    debounceRunFrom wait (⟨none⟩, log) events = (⟨none⟩, log) := by
  induction events with
  | nil => rfl
  | cons e es ih =>
    cases e with
    | call t a => simp [callsOf_call] at h
    | tick t =>
      rw [callsOf_tick] at h
      rw [debounceRunFrom_cons]
      simpa [debounceStep, Debounced.fire] using ih h

/-- A run that starts with the timer of a call at `tl` pending. -/
theorem debounce_pending (wait : Nat) (events : List (DebounceEvent α)) (tl : Nat) (al : α)
    (log : List (DebounceLog α))
    (hsorted : (events.map DebounceEvent.time).Pairwise (· ≤ ·))
    (hburst : List.Chain (fun a b => b < a + wait) tl ((callsOf events).map Prod.fst)) :
    (debounceRunFrom wait (⟨some (tl + wait, al)⟩, log) events =
        (⟨some (((callsOf events).getLastD (tl, al)).1 + wait,
            ((callsOf events).getLastD (tl, al)).2)⟩,
          log ++ (callsOf events).map (fun c => .called c.2))) ∨
    (debounceRunFrom wait (⟨some (tl + wait, al)⟩, log) events =
        (⟨none⟩, log ++ (callsOf events).map (fun c => .called c.2) ++
          [.invoked ((callsOf events).getLastD (tl, al)).2])) := by
  induction events generalizing tl al log with
  | nil => left; simp [debounceRunFrom, callsOf]
  | cons e es ih =>
    rw [List.map_cons, List.pairwise_cons] at hsorted
    obtain ⟨hle, hsorted2⟩ := hsorted
    cases e with
    | call t a =>
      rw [callsOf_call, List.map_cons, List.chain_cons] at hburst
      rw [debounceRunFrom_cons]
      have hstep : debounceStep wait (⟨some (tl + wait, al)⟩, log) (.call t a) =
          (⟨some (t + wait, a)⟩, log ++ [.called a]) := rfl
      rw [hstep, callsOf_call]
      have hl : ((t, a) :: callsOf es).getLastD (tl, al) = (callsOf es).getLastD (t, a) :=
        List.getLastD_cons _ _ _
      rw [hl]
      rcases ih t a (log ++ [.called a]) hsorted2 hburst.2 with h | h
      · left; rw [h]; simp
      · right; rw [h]; simp
    | tick t =>
      rw [callsOf_tick] at hburst ⊢
      rw [debounceRunFrom_cons]
      by_cases hdue : tl + wait ≤ t
      · have hstep : debounceStep wait (⟨some (tl + wait, al)⟩, log) (.tick t) =
            (⟨none⟩, log ++ [.invoked al]) := by
          simp [debounceStep, Debounced.fire, hdue]
        have hnone : callsOf es = [] := by
          cases hc : callsOf es with
          | nil => rfl
          | cons c cs =>
            exfalso
            rw [hc, List.map_cons, List.chain_cons] at hburst
            obtain ⟨e, he, htime⟩ := mem_callsOf_time es c (by rw [hc]; exact List.mem_cons_self _ _)
            have h1 : t ≤ e.time := hle e.time (List.mem_map_of_mem _ he)
            have h2 : c.1 < tl + wait := hburst.1
            rw [htime] at h1
            omega
        right
        rw [hstep, debounce_idle_ticks wait _ es hnone, hnone]
        simp
      · have hstep : debounceStep wait (⟨some (tl + wait, al)⟩, log) (.tick t) =
            (⟨some (tl + wait, al)⟩, log) := by
          simp [debounceStep, Debounced.fire, hdue]
        rw [hstep]
        exact ih tl al log hsorted2 hburst

/-- A run of a burst from the idle state. -/
theorem debounce_burst (wait : Nat) (events : List (DebounceEvent α))
    (log : List (DebounceLog α)) (tl : Nat) (al : α)
    (hsorted : (events.map DebounceEvent.time).Pairwise (· ≤ ·))
    (hburst : List.Chain' (fun a b => b < a + wait) ((callsOf events).map Prod.fst))
    (hlast : (callsOf events).getLast? = some (tl, al)) :
    (debounceRunFrom wait (⟨none⟩, log) events =
        (⟨some (tl + wait, al)⟩, log ++ (callsOf events).map (fun c => .called c.2))) ∨
    (debounceRunFrom wait (⟨none⟩, log) events =
        (⟨none⟩, log ++ (callsOf events).map (fun c => .called c.2) ++ [.invoked al])) := by
  induction events generalizing log with
  | nil => simp [callsOf] at hlast
  | cons e es ih =>
    rw [List.map_cons, List.pairwise_cons] at hsorted
    cases e with
    | tick t =>
      rw [callsOf_tick] at hburst hlast ⊢
      rw [debounceRunFrom_cons]
      have hstep : debounceStep wait (⟨none⟩, log) (.tick t) = (⟨none⟩, log) := by
        simp [debounceStep, Debounced.fire]
      rw [hstep]
      exact ih log hsorted.2 hburst hlast
    | call t a =>
      rw [callsOf_call] at hburst hlast ⊢
      rw [debounceRunFrom_cons]
      have hstep : debounceStep wait (⟨none⟩, log) (.call t a) =
          (⟨some (t + wait, a)⟩, log ++ [.called a]) := rfl
      have hd : (callsOf es).getLastD (t, a) = (tl, al) := by
        rw [List.getLast?_cons, ← List.getLastD_eq_getLast?] at hlast
        exact Option.some.inj hlast
      rw [hstep]
      rcases debounce_pending wait es t a (log ++ [.called a]) hsorted.2
        (by simpa [List.Chain'] using hburst) with h | h
      · left; rw [h, hd]; simp
      · right; rw [h, hd]; simp

end DebounceLemmas

/-! ## Lemmas on the events of a page -/

theorem pageRunFrom_cons (formId : String) (s : PageState) (e : PageEvent)
    (events : List PageEvent) :
    pageRunFrom formId s (e :: events) = pageRunFrom formId (pageStep formId s e) events :=
  rfl

theorem pageRunFrom_append (formId : String) (s : PageState) (es fs : List PageEvent) :
    pageRunFrom formId s (es ++ fs) = pageRunFrom formId (pageRunFrom formId s es) fs := by
  simp [pageRunFrom, List.foldl_append]

theorem mem_inputsOf_time (events : List PageEvent) (c : Nat × List Field)
    (h : c ∈ inputsOf events) : ∃ e ∈ events, e.time = c.1 := by
  unfold inputsOf at h
  rw [List.mem_filterMap] at h
  obtain ⟨e, he, hc⟩ := h
  cases e with
  | input t form =>
    simp only [Option.some.injEq] at hc
    subst hc
    exact ⟨_, he, rfl⟩
  | submit t v => simp at hc
  | tick t => simp at hc

theorem submitListeners_writes (formId : String) (valid : Bool) (pg : DraftPage) :
    (submitListeners formId valid pg).writes = pg.writes ∧
    (submitListeners formId valid pg).form = pg.form := by
  cases valid <;> exact ⟨rfl, rfl⟩

/-- With no timer pending and no edit to come, nothing is written. -/
theorem page_idle (formId : String) (pg : DraftPage) (events : List PageEvent)
    (h : inputsOf events = []) :
    (pageRunFrom formId ⟨pg, ⟨none⟩⟩ events).page.writes = pg.writes ∧
    (pageRunFrom formId ⟨pg, ⟨none⟩⟩ events).timer = ⟨none⟩ := by
  induction events generalizing pg with
  | nil => exact ⟨rfl, rfl⟩
  | cons e es ih =>
    rw [pageRunFrom_cons]
    cases e with
    | input t form => simp [inputsOf] at h
    | submit t v =>
      have h2 : inputsOf es = [] := by simpa [inputsOf] using h
      have hstep : pageStep formId ⟨pg, ⟨none⟩⟩ (.submit t v) =
          ⟨submitListeners formId v pg, ⟨none⟩⟩ := rfl
      rw [hstep]
      have := ih (submitListeners formId v pg) h2
      rw [(submitListeners_writes formId v pg).1] at this
      exact this
    | tick t =>
      have h2 : inputsOf es = [] := by simpa [inputsOf] using h
      have hstep : pageStep formId ⟨pg, ⟨none⟩⟩ (.tick t) = ⟨pg, ⟨none⟩⟩ := by
        simp [pageStep, Debounced.fire]
      rw [hstep]
      exact ih pg h2

/-- A run that starts with the timer of an edit at `tl` pending. -/
theorem page_pending (formId : String) (events : List PageEvent) (tl : Nat) (pg : DraftPage)
    (hsorted : (events.map PageEvent.time).Pairwise (· ≤ ·))
    (hnear : ∀ c ∈ inputsOf events, c.1 < tl + 1000)
    (hwindow : ∀ c ∈ inputsOf events, ∀ c' ∈ inputsOf events, c'.1 < c.1 + 1000) :
    ((pageRunFrom formId ⟨pg, ⟨some (tl + 1000, ())⟩⟩ events).page.writes = pg.writes ∧
      (pageRunFrom formId ⟨pg, ⟨some (tl + 1000, ())⟩⟩ events).page.form =
        ((inputsOf events).getLastD (tl, pg.form)).2 ∧
      (pageRunFrom formId ⟨pg, ⟨some (tl + 1000, ())⟩⟩ events).timer =
        ⟨some (((inputsOf events).getLastD (tl, pg.form)).1 + 1000, ())⟩) ∨
    ((pageRunFrom formId ⟨pg, ⟨some (tl + 1000, ())⟩⟩ events).page.writes =
        pg.writes ++ [("draft_" ++ formId,
          .json (draftData ((inputsOf events).getLastD (tl, pg.form)).2))] ∧
      (pageRunFrom formId ⟨pg, ⟨some (tl + 1000, ())⟩⟩ events).timer = ⟨none⟩) := by
  induction events generalizing tl pg with
  | nil => left; exact ⟨rfl, rfl, rfl⟩
  | cons e es ih =>
    rw [List.map_cons, List.pairwise_cons] at hsorted
    obtain ⟨hle, hsorted2⟩ := hsorted
    rw [pageRunFrom_cons]
    cases e with
    | input t form =>
      have hin : inputsOf (PageEvent.input t form :: es) = (t, form) :: inputsOf es := rfl
      rw [hin, List.getLastD_cons]
      have hstep : pageStep formId ⟨pg, ⟨some (tl + 1000, ())⟩⟩ (.input t form) =
          ⟨{ pg with form := form }, ⟨some (t + 1000, ())⟩⟩ := rfl
      rw [hstep]
      rw [hin] at hwindow
      exact ih t { pg with form := form } hsorted2
        (fun c hc => hwindow (t, form) (List.mem_cons_self _ _) c (List.mem_cons_of_mem _ hc))
        (fun c hc c' hc' => hwindow c (List.mem_cons_of_mem _ hc) c' (List.mem_cons_of_mem _ hc'))
    | submit t v =>
      have hin : inputsOf (PageEvent.submit t v :: es) = inputsOf es := rfl
      rw [hin] at hnear hwindow ⊢
      have hstep : pageStep formId ⟨pg, ⟨some (tl + 1000, ())⟩⟩ (.submit t v) =
          ⟨submitListeners formId v pg, ⟨some (tl + 1000, ())⟩⟩ := rfl
      rw [hstep]
      have := ih tl (submitListeners formId v pg) hsorted2 hnear hwindow
      rw [(submitListeners_writes formId v pg).1, (submitListeners_writes formId v pg).2] at this
      exact this
    | tick t =>
      have hin : inputsOf (PageEvent.tick t :: es) = inputsOf es := rfl
      rw [hin] at hnear hwindow ⊢
      by_cases hdue : tl + 1000 ≤ t
      · have hstep : pageStep formId ⟨pg, ⟨some (tl + 1000, ())⟩⟩ (.tick t) =
            ⟨saveDraft formId pg, ⟨none⟩⟩ := by
          simp [pageStep, Debounced.fire, hdue]
        have hnone : inputsOf es = [] := by
          cases hc : inputsOf es with
          | nil => rfl
          | cons c cs =>
            exfalso
            have hmem : c ∈ inputsOf es := by rw [hc]; exact List.mem_cons_self _ _
            obtain ⟨e, he, htime⟩ := mem_inputsOf_time es c hmem
            have h1 : t ≤ e.time := hle e.time (List.mem_map_of_mem _ he)
            have h2 : c.1 < tl + 1000 := hnear c hmem
            rw [htime] at h1
            omega
        right
        rw [hstep, hnone]
        obtain ⟨h1, h2⟩ := page_idle formId (saveDraft formId pg) es hnone
        exact ⟨by rw [h1]; rfl, h2⟩
      · have hstep : pageStep formId ⟨pg, ⟨some (tl + 1000, ())⟩⟩ (.tick t) =
            ⟨pg, ⟨some (tl + 1000, ())⟩⟩ := by
          simp [pageStep, Debounced.fire, hdue]
        rw [hstep]
        exact ih tl pg hsorted2 hnear hwindow

/-- A run of edits within one window, from the state after `DOMContentLoaded`. -/
theorem page_burst (formId : String) (events : List PageEvent) (pg : DraftPage)
    (tl : Nat) (formL : List Field)
    (hsorted : (events.map PageEvent.time).Pairwise (· ≤ ·))
    (hwindow : ∀ c ∈ inputsOf events, ∀ c' ∈ inputsOf events, c'.1 < c.1 + 1000)
    (hlast : (inputsOf events).getLast? = some (tl, formL)) :
    ((pageRunFrom formId ⟨pg, ⟨none⟩⟩ events).page.writes = pg.writes ∧
      (pageRunFrom formId ⟨pg, ⟨none⟩⟩ events).page.form = formL ∧
      (pageRunFrom formId ⟨pg, ⟨none⟩⟩ events).timer = ⟨some (tl + 1000, ())⟩) ∨
    ((pageRunFrom formId ⟨pg, ⟨none⟩⟩ events).page.writes =
        pg.writes ++ [("draft_" ++ formId, .json (draftData formL))] ∧
      (pageRunFrom formId ⟨pg, ⟨none⟩⟩ events).timer = ⟨none⟩) := by
  induction events generalizing pg with
  | nil => simp [inputsOf] at hlast
  | cons e es ih =>
    rw [List.map_cons, List.pairwise_cons] at hsorted
    rw [pageRunFrom_cons]
    cases e with
    | input t form =>
      have hin : inputsOf (PageEvent.input t form :: es) = (t, form) :: inputsOf es := rfl
      rw [hin] at hwindow hlast
      have hstep : pageStep formId ⟨pg, ⟨none⟩⟩ (.input t form) =
          ⟨{ pg with form := form }, ⟨some (t + 1000, ())⟩⟩ := rfl
      have hd : (inputsOf es).getLastD (t, form) = (tl, formL) := by
        rw [List.getLast?_cons, ← List.getLastD_eq_getLast?] at hlast
        exact Option.some.inj hlast
      rw [hstep]
      have := page_pending formId es t { pg with form := form } hsorted.2
        (fun c hc => hwindow (t, form) (List.mem_cons_self _ _) c (List.mem_cons_of_mem _ hc))
        (fun c hc c' hc' => hwindow c (List.mem_cons_of_mem _ hc) c' (List.mem_cons_of_mem _ hc'))
      rw [hd] at this
      exact this
    | submit t v =>
      have hin : inputsOf (PageEvent.submit t v :: es) = inputsOf es := rfl
      rw [hin] at hwindow hlast
      have hstep : pageStep formId ⟨pg, ⟨none⟩⟩ (.submit t v) =
          ⟨submitListeners formId v pg, ⟨none⟩⟩ := rfl
      rw [hstep]
      have := ih (submitListeners formId v pg) hsorted.2 hwindow hlast
      rw [(submitListeners_writes formId v pg).1] at this
      exact this
    | tick t =>
      have hin : inputsOf (PageEvent.tick t :: es) = inputsOf es := rfl
      rw [hin] at hwindow hlast
      have hstep : pageStep formId ⟨pg, ⟨none⟩⟩ (.tick t) = ⟨pg, ⟨none⟩⟩ := by
        simp [pageStep, Debounced.fire]
      rw [hstep]
      exact ih pg hsorted.2 hwindow hlast

/-! ## Lemmas on the e-mail pattern -/

theorem matchItems_nil (s : List Char) : matchItems [] s = true ↔ s = [] := by
  cases s <;> simp [matchItems]

theorem matchItems_one (p : Char → Bool) (r : List RegexItem) (s : List Char) :
    matchItems (.one p :: r) s = true ↔
      ∃ c b, s = c :: b ∧ p c = true ∧ matchItems r b = true := by
  cases s with
  | nil => simp [matchItems]
  | cons c b =>
    simp only [matchItems, Bool.and_eq_true, List.cons.injEq]
    constructor
    · rintro ⟨h1, h2⟩
      exact ⟨c, b, ⟨rfl, rfl⟩, h1, h2⟩
    · rintro ⟨c2, b2, ⟨rfl, rfl⟩, h1, h2⟩
      exact ⟨h1, h2⟩

theorem matchItems_many1 (p : Char → Bool) (r : List RegexItem) (s : List Char) :
    matchItems (.many1 p :: r) s = true ↔
      ∃ a b, s = a ++ b ∧ a ≠ [] ∧ (∀ c ∈ a, p c = true) ∧ matchItems r b = true := by
  induction s with
  | nil =>
    simp only [matchItems, Bool.false_eq_true, false_iff]
    rintro ⟨a, b, h, ha, _⟩
    cases a with
    | nil => exact ha rfl
    | cons x xs => simp at h
  | cons c s ih =>
    simp only [matchItems, Bool.and_eq_true, Bool.or_eq_true, ih]
    constructor
    · rintro ⟨hc, h | ⟨a, b, rfl, ha, hall, hr⟩⟩
      · exact ⟨[c], s, rfl, by simp, by simpa using hc, h⟩
      · refine ⟨c :: a, b, rfl, by simp, ?_, hr⟩
        intro x hx
        rcases List.mem_cons.mp hx with rfl | hx
        · exact hc
        · exact hall x hx
    · rintro ⟨a, b, h, ha, hall, hr⟩
      cases a with
      | nil => exact absurd rfl ha
      | cons x xs =>
        simp only [List.cons_append, List.cons.injEq] at h
        obtain ⟨rfl, rfl⟩ := h
        refine ⟨hall c (List.mem_cons_self _ _), ?_⟩
        cases xs with
        | nil => left; simpa using hr
        | cons y ys =>
          right
          exact ⟨y :: ys, b, rfl, by simp, fun z hz => hall z (List.mem_cons_of_mem _ hz), hr⟩

/-- The strings that `emailRegex` accepts. -/
theorem emailRegex_iff (s : List Char) :
    matchItems emailRegex s = true ↔
      ∃ l d t, s = l ++ '@' :: (d ++ '.' :: t) ∧ l ≠ [] ∧ d ≠ [] ∧ t ≠ [] ∧
        (∀ c ∈ l, notSpaceNorAt c = true) ∧ (∀ c ∈ d, notSpaceNorAt c = true) ∧
        (∀ c ∈ t, notSpaceNorAt c = true) := by
  unfold emailRegex
  simp only [matchItems_many1, matchItems_one, matchItems_nil]
  constructor
  · rintro ⟨l, b1, rfl, hl, hlall, c1, b2, rfl, hc1, d, b3, rfl, hd, hdall, c2, b4, rfl, hc2,
      t, b5, rfl, ht, htall, rfl⟩
    simp only [beq_iff_eq] at hc1 hc2
    subst hc1 hc2
    exact ⟨l, d, t, by simp, hl, hd, ht, hlall, hdall, htall⟩
  · rintro ⟨l, d, t, rfl, hl, hd, ht, hlall, hdall, htall⟩
    exact ⟨l, _, rfl, hl, hlall, '@', _, rfl, by simp, d, _, rfl, hd, hdall, '.', _, rfl,
      by simp, t, [], by simp, ht, htall, rfl⟩

theorem notSpaceNorAt_iff (c : Char) :
    notSpaceNorAt c = true ↔ isJsWhitespace c = false ∧ c ≠ '@' := by
  simp [notSpaceNorAt]

theorem count_at_zero (l : List Char) (h : ∀ c ∈ l, notSpaceNorAt c = true) :
    l.count '@' = 0 := by
  rw [List.count_eq_zero]
  intro hmem
  have := (notSpaceNorAt_iff _).mp (h _ hmem)
  exact this.2 rfl

/-- The pattern in the words of the specification: one `@`, no white space, a
non-empty part before the `@` and after it a dot with a character on each
side. -/
theorem emailRegex_words (s : List Char) :
    matchItems emailRegex s = true ↔
      s.count '@' = 1 ∧ (∀ c ∈ s, isJsWhitespace c = false) ∧
      ∃ l d t, s = l ++ '@' :: (d ++ '.' :: t) ∧ l ≠ [] ∧ d ≠ [] ∧ t ≠ [] := by
  rw [emailRegex_iff]
  constructor
  · rintro ⟨l, d, t, rfl, hl, hd, ht, hlall, hdall, htall⟩
    refine ⟨?_, ?_, l, d, t, rfl, hl, hd, ht⟩
    · have hdot : ('.' : Char) ≠ '@' := by decide
      simp [List.count_append, List.count_cons, count_at_zero l hlall, count_at_zero d hdall,
        count_at_zero t htall, hdot]
    · intro c hc
      simp only [List.mem_append, List.mem_cons] at hc
      rcases hc with hc | rfl | hc | rfl | hc
      · exact ((notSpaceNorAt_iff c).mp (hlall c hc)).1
      · decide
      · exact ((notSpaceNorAt_iff c).mp (hdall c hc)).1
      · decide
      · exact ((notSpaceNorAt_iff c).mp (htall c hc)).1
  · rintro ⟨hcount, hws, l, d, t, rfl, hl, hd, ht⟩
    have hdot : ('.' : Char) ≠ '@' := by decide
    simp only [List.count_append, List.count_cons, beq_self_eq_true, if_true] at hcount
    have hdot2 : (('.' : Char) == '@') = false := by decide
    simp only [hdot2, Bool.false_eq_true, if_false, Nat.add_zero] at hcount
    have h0l : l.count '@' = 0 := by omega
    have h0d : d.count '@' = 0 := by omega
    have h0t : t.count '@' = 0 := by omega
    refine ⟨l, d, t, rfl, hl, hd, ht, ?_, ?_, ?_⟩
    · intro c hc
      rw [notSpaceNorAt_iff]
      refine ⟨hws c (by simp [hc]), ?_⟩
      rintro rfl
      exact (List.count_eq_zero.mp h0l) hc
    · intro c hc
      rw [notSpaceNorAt_iff]
      refine ⟨hws c (by simp [hc]), ?_⟩
      rintro rfl
      exact (List.count_eq_zero.mp h0d) hc
    · intro c hc
      rw [notSpaceNorAt_iff]
      refine ⟨hws c (by simp [hc]), ?_⟩
      rintro rfl
      exact (List.count_eq_zero.mp h0t) hc

/-! ## Lemmas on the number animation -/

section CounterLemmas

variable {round : ℚ → ℚ} {ε : ℚ} {target : Nat}

theorem counterStep_nonneg (h : RoundsWell round ε target) : 0 ≤ counterStep round target := by
  unfold counterStep
  rw [h.quotient]
  have h0 : (0 : ℚ) ≤ (target : ℚ) / (1500 / 16) := by positivity
  calc (0 : ℚ) = round 0 := h.zero.symm
    _ ≤ round ((target : ℚ) / (1500 / 16)) := h.mono _ _ h0

theorem counterStep_le (h : RoundsWell round ε target) :
    counterStep round target ≤ (target : ℚ) := by
  unfold counterStep
  rw [h.quotient]
  have ht : (0 : ℚ) ≤ (target : ℚ) := by positivity
  have h0 : (target : ℚ) / (1500 / 16) ≤ (target : ℚ) := by
    rw [div_le_iff₀ (by norm_num)]
    nlinarith
  calc round ((target : ℚ) / (1500 / 16)) ≤ round (target : ℚ) := h.mono _ _ h0
    _ = (target : ℚ) := h.target_exact

theorem counterStep_ge (h : RoundsWell round ε target) (ht : 1 ≤ target) :
    (target : ℚ) / (1500 / 16) * (1 - ε) ≤ counterStep round target := by
  unfold counterStep
  rw [h.quotient]
  have ht1 : (1 : ℚ) ≤ (target : ℚ) := by exact_mod_cast ht
  apply h.error
  · rw [le_div_iff₀ (by norm_num)]
    linarith
  · rw [div_le_iff₀ (by norm_num)]
    nlinarith

theorem counterStep_ge_lo (h : RoundsWell round ε target) (ht : 1 ≤ target) :
    (1 : ℚ) / 128 ≤ counterStep round target := by
  have h1 := counterStep_ge h ht
  have ht1 : (1 : ℚ) ≤ (target : ℚ) := by exact_mod_cast ht
  have he := h.eps_small
  have he0 := h.eps_nonneg
  have h2 : (1 : ℚ) / (1500 / 16) ≤ (target : ℚ) / (1500 / 16) := by
    apply div_le_div_of_nonneg_right ht1 (by norm_num)
  have h3 : (99999 : ℚ) / 100000 ≤ 1 - ε := by linarith
  have h4 : (1 : ℚ) / (1500 / 16) * (99999 / 100000) ≤
      (target : ℚ) / (1500 / 16) * (1 - ε) := by
    apply mul_le_mul h2 h3 (by norm_num) (by positivity)
  have h5 : (1 : ℚ) / 128 ≤ 1 / (1500 / 16) * (99999 / 100000) := by norm_num
  linarith

theorem counterInv_zero (h : RoundsWell round ε target) :
    CounterInv round ε target 0 (animateNumber round target 0) where
  frames_le := Nat.le_refl 0
  frames_eq := fun _ => rfl
  current_nonneg := le_refl 0
  current_exact := h.zero
  current_lt := fun _ h1 => by simp [animateNumber] at h1
  current_zero := fun _ _ => rfl
  lower := fun _ => by simp [animateNumber]
  shown_range := fun v hv => by simp [animateNumber] at hv
  shown_le := fun _ v hv => by simp [animateNumber] at hv
  shown_sorted := List.Pairwise.nil
  shown_last := fun hr => by simp [animateNumber] at hr
  shown_length := rfl

theorem lower_step (a e k c : ℚ) (ha : 0 ≤ a) (he : 0 ≤ e) (he1 : e ≤ 1) (hk : 0 ≤ k)
    (hc : k * a * (1 - k * e) ≤ c) :
    (k + 1) * a * (1 - (k + 1) * e) ≤ (c + a) * (1 - e) := by
  have h1 : (k * a * (1 - k * e) + a) * (1 - e) ≤ (c + a) * (1 - e) := by
    apply mul_le_mul_of_nonneg_right _ (by linarith)
    linarith
  have h2 : (k * a * (1 - k * e) + a) * (1 - e) =
      (k + 1) * a * (1 - (k + 1) * e) + a * e * k * (1 + k * e) := by ring
  have h3 : 0 ≤ a * e * k * (1 + k * e) := by positivity
  linarith

theorem counterInv_frame (h : RoundsWell round ε target) (n : Nat) (s : Counter)
    (inv : CounterInv round ε target n s) :
    CounterInv round ε target (n + 1) (animationFrame round target s) := by
  unfold animationFrame
  by_cases hrun : s.running = true
  · rw [if_pos hrun]
    have hframes := inv.frames_eq hrun
    have hstep0 := counterStep_nonneg h
    have hmono : s.current ≤ round (s.current + counterStep round target) := by
      calc s.current = round s.current := inv.current_exact.symm
        _ ≤ round (s.current + counterStep round target) := h.mono _ _ (by linarith)
    have hc0 : 0 ≤ round (s.current + counterStep round target) :=
      le_trans inv.current_nonneg hmono
    unfold updateNumber
    by_cases hlt : round (s.current + counterStep round target) < (target : ℚ)
    · simp only [hlt, if_true]
      have htpos : 1 ≤ target := by
        have : (0 : ℚ) < (target : ℚ) := lt_of_le_of_lt hc0 hlt
        exact_mod_cast this
      have hcle : s.current ≤ (target : ℚ) := by
        by_cases hf : 1 ≤ s.frames
        · exact le_of_lt (inv.current_lt hrun hf)
        · have : s.frames = 0 := by omega
          rw [inv.current_zero hrun this]
          positivity
      have herr : (s.current + counterStep round target) * (1 - ε) ≤
          round (s.current + counterStep round target) := by
        apply h.error
        · have := counterStep_ge_lo h htpos
          linarith [inv.current_nonneg]
        · have := counterStep_le h
          linarith
      exact {
        frames_le := by simp only []; omega
        frames_eq := fun _ => by simp only []; omega
        current_nonneg := hc0
        current_exact := h.idem _
        current_lt := fun _ _ => hlt
        current_zero := fun _ h0 => by simp only [] at h0; omega
        lower := fun _ => by
          simp only [Nat.cast_add, Nat.cast_one]
          have hl := inv.lower hrun
          have he1 : ε ≤ 1 := le_trans h.eps_small (by norm_num)
          have := lower_step (counterStep round target) ε (s.frames : ℚ) s.current hstep0
            h.eps_nonneg he1 (by positivity) hl
          linarith
        shown_range := fun v hv => by
          simp only [List.mem_append, List.mem_singleton] at hv
          rcases hv with hv | rfl
          · exact inv.shown_range v hv
          · constructor
            · exact Int.floor_nonneg.mpr hc0
            · have : Int.floor (round (s.current + counterStep round target)) <
                  (target : Int) := by
                rw [Int.floor_lt]
                exact_mod_cast hlt
              omega
        shown_le := fun _ v hv => by
          simp only [List.mem_append, List.mem_singleton] at hv
          rcases hv with hv | rfl
          · exact le_trans (inv.shown_le hrun v hv) hmono
          · exact Int.floor_le _
        shown_sorted := by
          simp only []
          rw [List.pairwise_append]
          refine ⟨inv.shown_sorted, List.pairwise_singleton _ _, ?_⟩
          intro a ha b hb
          rw [List.mem_singleton] at hb
          subst hb
          rw [Int.le_floor]
          exact le_trans (inv.shown_le hrun a ha) hmono
        shown_last := fun hr => by simp only [] at hr; exact absurd hr (by decide)
        shown_length := by simp [inv.shown_length] }
    · simp only [hlt, if_false]
      exact {
        frames_le := by simp only []; omega
        frames_eq := fun _ => by simp only []; omega
        current_nonneg := hc0
        current_exact := h.idem _
        current_lt := fun hr _ => by simp only [] at hr; exact absurd hr (by decide)
        current_zero := fun hr _ => by simp only [] at hr; exact absurd hr (by decide)
        lower := fun hr => by simp only [] at hr; exact absurd hr (by decide)
        shown_range := fun v hv => by
          simp only [List.mem_append, List.mem_singleton] at hv
          rcases hv with hv | rfl
          · exact inv.shown_range v hv
          · exact ⟨by positivity, le_refl _⟩
        shown_le := fun hr => by simp only [] at hr; exact absurd hr (by decide)
        shown_sorted := by
          simp only []
          rw [List.pairwise_append]
          refine ⟨inv.shown_sorted, List.pairwise_singleton _ _, ?_⟩
          intro a ha b hb
          rw [List.mem_singleton] at hb
          subst hb
          exact (inv.shown_range a ha).2
        shown_last := fun _ => by simp
        shown_length := by simp [inv.shown_length] }
  · rw [if_neg hrun]
    have hfalse : s.running = false := by simpa using hrun
    exact {
      frames_le := Nat.le_succ_of_le inv.frames_le
      frames_eq := fun hr => absurd hr hrun
      current_nonneg := inv.current_nonneg
      current_exact := inv.current_exact
      current_lt := fun hr => absurd hr hrun
      current_zero := fun hr => absurd hr hrun
      lower := fun hr => absurd hr hrun
      shown_range := inv.shown_range
      shown_le := fun hr => absurd hr hrun
      shown_sorted := inv.shown_sorted
      shown_last := fun _ => inv.shown_last hfalse
      shown_length := inv.shown_length }

theorem counterInv_all (h : RoundsWell round ε target) (n : Nat) :
    CounterInv round ε target n (animateNumber round target n) := by
  induction n with
  | zero => exact counterInv_zero h
  | succ n ih => exact counterInv_frame h n _ ih

/-- After 94 frames no further call is due. -/
theorem counterInv_stopped (h : RoundsWell round ε target) (s : Counter)
    (inv : CounterInv round ε target 94 s) : s.running = false := by
  by_contra hrun
  have hrun : s.running = true := by simpa using hrun
  have hframes := inv.frames_eq hrun
  have hlt := inv.current_lt hrun (by omega)
  have hlow := inv.lower hrun
  rw [hframes] at hlow
  have htpos : 1 ≤ target := by
    have : (0 : ℚ) < (target : ℚ) := lt_of_le_of_lt inv.current_nonneg hlt
    exact_mod_cast this
  have ht1 : (1 : ℚ) ≤ (target : ℚ) := by exact_mod_cast htpos
  have hstep := counterStep_ge h htpos
  have he := h.eps_small
  have he0 := h.eps_nonneg
  have h94 : (0 : ℚ) ≤ 1 - (94 : ℚ) * ε := by linarith
  have h1 : ((94 : ℕ) : ℚ) * ((target : ℚ) / (1500 / 16) * (1 - ε)) * (1 - ((94 : ℕ) : ℚ) * ε) ≤
      ((94 : ℕ) : ℚ) * counterStep round target * (1 - ((94 : ℕ) : ℚ) * ε) := by
    apply mul_le_mul_of_nonneg_right _ (by push_cast; linarith)
    apply mul_le_mul_of_nonneg_left hstep (by positivity)
  have h2 : (target : ℚ) ≤
      ((94 : ℕ) : ℚ) * ((target : ℚ) / (1500 / 16) * (1 - ε)) * (1 - ((94 : ℕ) : ℚ) * ε) := by
    have h3 : (99905 : ℚ) / 100000 ≤ (1 - ε) * (1 - 94 * ε) := by nlinarith
    have h4 : ((94 : ℕ) : ℚ) * ((target : ℚ) / (1500 / 16) * (1 - ε)) *
        (1 - ((94 : ℕ) : ℚ) * ε) =
        (target : ℚ) * (94 / (1500 / 16)) * ((1 - ε) * (1 - 94 * ε)) := by
      push_cast
      ring
    rw [h4]
    have h5 : (target : ℚ) * (94 / (1500 / 16)) * (99905 / 100000) ≤
        (target : ℚ) * (94 / (1500 / 16)) * ((1 - ε) * (1 - 94 * ε)) := by
      apply mul_le_mul_of_nonneg_left h3 (by positivity)
    have h6 : (target : ℚ) ≤ (target : ℚ) * (94 / (1500 / 16)) * (99905 / 100000) := by
      have : (1 : ℚ) ≤ 94 / (1500 / 16) * (99905 / 100000) := by norm_num
      nlinarith
    linarith
  exact absurd (le_trans (le_trans h2 h1) hlow) (not_le.mpr hlt)

theorem counter_stops (h : RoundsWell round ε target) :
    (animateNumber round target 94).running = false :=
  counterInv_stopped h _ (counterInv_all h 94)

theorem animateNumber_stable (n : Nat)
    (hstop : (animateNumber round target n).running = false) (m : Nat) (hm : n ≤ m) :
    animateNumber round target m = animateNumber round target n := by
  induction m with
  | zero =>
    have : n = 0 := by omega
    rw [this]
  | succ m ih =>
    by_cases hmn : n = m + 1
    · rw [hmn]
    · have ih2 := ih (by omega)
      show animationFrame round target (animateNumber round target m) = _
      rw [ih2]
      simp [animationFrame, hstop]

end CounterLemmas

/-! ## Theorems: form builder -/

/-- C1: `generateFormHTML` is the concatenation, in input order, of one block
per field, each block a function of that field alone: the empty list gives the
empty string, a list with a first field gives that field's block followed by
the rendering of the rest, and the rendering of `xs ++ ys` is the rendering of
`xs` followed by the rendering of `ys`. -/
theorem generateFormHTML_concat (xs ys : List FieldDefinition) (f : FieldDefinition) :
    generateFormHTML [] = "" ∧
    generateFormHTML (f :: xs) = fieldBlock f ++ generateFormHTML xs ∧
    generateFormHTML (xs ++ ys) = generateFormHTML xs ++ generateFormHTML ys := by
  refine ⟨rfl, ?_, ?_⟩
  · simp [generateFormHTML, join_cons]
  · simp [generateFormHTML, join_append]

/-- C10: for a field whose type is none of `text`, `email`, `select`, the block
is the fixed opening text, the label, and the fixed closing text (a label and a
bare text input); it is the same whatever `required`, `placeholder`,
`help_text` and `options` are, and the fixed text holds no required marker, no
`required` attribute and no help-text element. -/
theorem fieldBlock_fallback (f : FieldDefinition)
    (h : f.type ≠ "text" ∧ f.type ≠ "email" ∧ f.type ≠ "select") :
    fieldBlock f =
      "<div class=\"mb-3\"><label class=\"form-label\">" ++ f.label ++
        "</label><input type=\"text\" class=\"form-control\"></div>" ∧
    (∀ (r : Bool) (p ht : Option String) (o : Option (List OptionEntry)),
      fieldBlock { f with required := r, placeholder := p, help_text := ht, options := o }
        = fieldBlock f) ∧
    includes (fallbackOpen ++ fallbackClose) "required" = false ∧
    includes (fallbackOpen ++ fallbackClose) "text-danger" = false ∧
    includes (fallbackOpen ++ fallbackClose) "form-text" = false ∧
    includes (fallbackOpen ++ fallbackClose) "placeholder" = false := by
  obtain ⟨h1, h2, h3⟩ := h
  refine ⟨?_, ?_, by decide, by decide, by decide, by decide⟩
  · simp [fieldBlock, h1, h2, h3, fallbackBlock, fallbackOpen, fallbackClose]
  · intro r p ht o
    simp [fieldBlock, h1, h2, h3, fallbackBlock]

/-- Witness of C10 at a field of type `date`. -/
theorem fieldBlock_fallback_witness :
    fieldBlock ⟨"date", "Birthday", some "dd/mm", true, some "pick a day", none⟩ =
      "<div class=\"mb-3\"><label class=\"form-label\">" ++ "Birthday" ++
        "</label><input type=\"text\" class=\"form-control\"></div>" :=
  (fieldBlock_fallback ⟨"date", "Birthday", some "dd/mm", true, some "pick a day", none⟩
    ⟨by decide, by decide, by decide⟩).1

/-! ## Theorems: student search and dispatcher -/

/-- C6: for a query of fewer than two UTF-16 code units `searchStudents`
issues no request and leaves the result list empty, whatever it held. -/
theorem searchStudents_short (P : Platform) (query results : String)
    (h : jsLength query < 2) :
    searchStudents P query results = ("", []) := by
  simp [searchStudents, h]

/-- Witness of C6 at the one-letter query `a` and a filled result list. -/
theorem searchStudents_short_witness :
    jsLength "a" < 2 ∧
    ∀ P : Platform, searchStudents P "a" "<div>old</div>" = ("", []) :=
  ⟨by decide, fun P => searchStudents_short P "a" "<div>old</div>" (by decide)⟩

/-- C7: when the user declines every prompt, each confirmation-gated action
(`deleteDepartment`, `startClass`, `endClass`, `resetUserPassword`,
`confirmDelete`, and `bulkUserAction` with an action and a checked user) does
nothing but show one prompt: no request, no form, no notification, no reload,
whatever the server would have answered. -/
theorem declined_sends_nothing (confirm : String → Bool) (hno : ∀ m, confirm m = false)
    (server : Request → FetchOutcome) (doc : Document) (id name url : String) :
    (∃ m, deleteDepartment confirm server doc id name = [Effect.confirm m]) ∧
    (∃ m, startClass confirm server doc id = [Effect.confirm m]) ∧
    (∃ m, endClass confirm server doc id = [Effect.confirm m]) ∧
    (∃ m, resetUserPassword confirm doc id name = [Effect.confirm m]) ∧
    (∃ m, confirmDelete confirm doc name url = [Effect.confirm m]) ∧
    (doc.bulkAction ≠ "" → doc.checkedUsers ≠ [] →
      ∃ m, bulkUserAction confirm doc = [Effect.confirm m]) := by
  refine ⟨?_, ?_, ?_, ?_, ?_, ?_⟩
  · exact ⟨"Delete department \"" ++ name ++ "\"? This action cannot be undone.",
      by simp [deleteDepartment, hno]⟩
  · exact ⟨"Start this class session?", by simp [startClass, hno]⟩
  · exact ⟨"End this class session?", by simp [endClass, hno]⟩
  · exact ⟨"Reset password for " ++ name ++
      "? New credentials will be sent to their email.", by simp [resetUserPassword, hno]⟩
  · exact ⟨"Are you sure you want to delete \"" ++ name ++
      "\"? This action cannot be undone.", by simp [confirmDelete, hno]⟩
  · intro ha hc
    simp only [bulkUserAction, hno, ha, if_false]
    rw [if_neg (by simpa using hc)]
    exact ⟨_, rfl⟩

/-- Witness of C7: a user who declines everything, a server that would have
answered 200, a document with one checked user. -/
theorem declined_sends_nothing_witness :
    bulkUserAction (fun _ => false) ⟨some "tok", "delete", [⟨"7", some "Ann"⟩]⟩ =
      [Effect.confirm "Are you sure you want to delete Ann?"] ∧
    ∃ m, deleteDepartment (fun _ => false) (fun _ => .response 200 (some (true, "ok")))
      ⟨some "tok", "delete", [⟨"7", some "Ann"⟩]⟩ "3" "Maths" = [Effect.confirm m] :=
  ⟨by decide,
   (declined_sends_nothing (fun _ => false) (fun _ => rfl)
      (fun _ => .response 200 (some (true, "ok")))
      ⟨some "tok", "delete", [⟨"7", some "Ann"⟩]⟩ "3" "Maths" "/x").1⟩

/-! ## Theorems: table utility -/

/-- C4, as amended: on a body whose rows all have the column, `sortTable`
returns with the old rows reordered. Under `number`, when every cell of the column parses to a
number, the rows are in non-decreasing order of the parsed trimmed text. Under
`text`, for a consistent `localeCompare`, they are in non-decreasing order of
the trimmed text under `localeCompare`. A column holding `10`, `2`, `33` comes
out as `2`, `10`, `33` under `number` and as `10`, `2`, `33` under `text`. -/
theorem sortTable_sorted (P : Platform) (tbody : List Row) (columnIndex : Nat)
    (hcol : ∀ r ∈ tbody, columnIndex < r.cells.length) :
    ((∀ r ∈ tbody, ∀ t, cellText r columnIndex = some t → P.parseFloat t ≠ .nan) →
      ∃ out, sortTable P tbody columnIndex "number" = some out ∧ out.Perm tbody ∧
        out.Pairwise (fun a b => ∀ x y, cellText a columnIndex = some x →
          cellText b columnIndex = some y → (P.parseFloat x).le (P.parseFloat y))) ∧
    ((∀ x y, P.localeCompare x y ≤ 0 ∨ P.localeCompare y x ≤ 0) →
      (∀ x y z, P.localeCompare x y ≤ 0 → P.localeCompare y z ≤ 0 →
        P.localeCompare x z ≤ 0) →
      ∃ out, sortTable P tbody columnIndex "text" = some out ∧ out.Perm tbody ∧
        out.Pairwise (fun a b => ∀ x y, cellText a columnIndex = some x →
          cellText b columnIndex = some y → P.localeCompare x y ≤ 0)) ∧
    (P.parseFloat "10" = .fin 10 → P.parseFloat "2" = .fin 2 → P.parseFloat "33" = .fin 33 →
      sortTable P [⟨[.cell "10"], ""⟩, ⟨[.cell "2"], ""⟩, ⟨[.cell "33"], ""⟩] 0 "number" =
        some [⟨[.cell "2"], ""⟩, ⟨[.cell "10"], ""⟩, ⟨[.cell "33"], ""⟩]) ∧
    (P.localeCompare "10" "2" ≤ 0 → P.localeCompare "2" "33" ≤ 0 →
      sortTable P [⟨[.cell "10"], ""⟩, ⟨[.cell "2"], ""⟩, ⟨[.cell "33"], ""⟩] 0 "text" =
        some [⟨[.cell "10"], ""⟩, ⟨[.cell "2"], ""⟩, ⟨[.cell "33"], ""⟩]) := by
  refine ⟨?_, ?_, ?_, ?_⟩
  · intro hnum
    apply sortTable_spec P columnIndex "number"
      (fun r => ∃ t, cellText r columnIndex = some t ∧ P.parseFloat t ≠ .nan)
    · rintro a b ⟨x, hx, hxn⟩ ⟨y, hy, hyn⟩
      refine ⟨(P.parseFloat x).sub (P.parseFloat y), ?_, ?_⟩
      · simp [compareRows, hx, hy]
      · rw [sub_isPositive_iff _ _ hxn hyn]
        constructor
        · intro h x2 y2 hx2 hy2
          rw [hx] at hx2
          rw [hy] at hy2
          cases hx2
          cases hy2
          exact h
        · intro h
          exact h x y hx hy
    · rintro a b ⟨x, hx, hxn⟩ ⟨y, hy, hyn⟩
      rcases jsLe_total _ _ hxn hyn with h | h
      · left
        intro x2 y2 hx2 hy2
        rw [hx] at hx2
        rw [hy] at hy2
        cases hx2
        cases hy2
        exact h
      · right
        intro y2 x2 hy2 hx2
        rw [hx] at hx2
        rw [hy] at hy2
        cases hx2
        cases hy2
        exact h
    · rintro a b c ⟨x, hx, _⟩ ⟨y, hy, _⟩ ⟨z, hz, _⟩ hab hbc
      intro x2 z2 hx2 hz2
      rw [hx] at hx2
      rw [hz] at hz2
      cases hx2
      cases hz2
      exact jsLe_trans _ _ _ (hab x y hx hy) (hbc y z hy hz)
    · intro r hr
      obtain ⟨t, ht⟩ := cellText_of_lt r columnIndex (hcol r hr)
      exact ⟨t, ht, hnum r hr t ht⟩
  · intro htot htr
    apply sortTable_spec P columnIndex "text"
      (fun r => ∃ t, cellText r columnIndex = some t)
    · rintro a b ⟨x, hx⟩ ⟨y, hy⟩
      refine ⟨.fin (P.localeCompare x y), ?_, ?_⟩
      · simp [compareRows, hx, hy]
      · simp only [JSNumber.isPositive, decide_eq_false_iff_not, not_lt, Int.cast_nonpos]
        constructor
        · intro h x2 y2 hx2 hy2
          rw [hx] at hx2
          rw [hy] at hy2
          cases hx2
          cases hy2
          exact h
        · intro h
          exact h x y hx hy
    · rintro a b ⟨x, hx⟩ ⟨y, hy⟩
      rcases htot x y with h | h
      · left
        intro x2 y2 hx2 hy2
        rw [hx] at hx2
        rw [hy] at hy2
        cases hx2
        cases hy2
        exact h
      · right
        intro y2 x2 hy2 hx2
        rw [hx] at hx2
        rw [hy] at hy2
        cases hx2
        cases hy2
        exact h
    · rintro a b c ⟨x, hx⟩ ⟨y, hy⟩ ⟨z, hz⟩ hab hbc
      intro x2 z2 hx2 hz2
      rw [hx] at hx2
      rw [hz] at hz2
      cases hx2
      cases hz2
      exact htr x y z (hab x y hx hy) (hbc y z hy hz)
    · intro r hr
      exact cellText_of_lt r columnIndex (hcol r hr)
  · intro h10 h2 h33
    have c10 : cellText ⟨[.cell "10"], ""⟩ 0 = some "10" := by decide
    have c2 : cellText ⟨[.cell "2"], ""⟩ 0 = some "2" := by decide
    have c33 : cellText ⟨[.cell "33"], ""⟩ 0 = some "33" := by decide
    norm_num [sortTable, jsSort, insertSorted, compareRows, c10, c2, c33, h10, h2, h33,
      JSNumber.sub, JSNumber.isPositive, List.enum, List.enumFrom, appendChild]
  · intro h1 h2
    have c10 : cellText ⟨[.cell "10"], ""⟩ 0 = some "10" := by decide
    have c2 : cellText ⟨[.cell "2"], ""⟩ 0 = some "2" := by decide
    have c33 : cellText ⟨[.cell "33"], ""⟩ 0 = some "33" := by decide
    simp [sortTable, jsSort, insertSorted, compareRows, c10, c2, c33, not_lt.mpr h1,
      not_lt.mpr h2, JSNumber.isPositive, List.enum, List.enumFrom, appendChild]

/-- Witness of C4 as amended: the column `10`, `2`, `33` on the sample
platform, sorted as numbers and sorted as text. -/
theorem sortTable_sorted_witness :
    (∀ r ∈ [(⟨[.cell "10"], ""⟩ : Row), ⟨[.cell "2"], ""⟩, ⟨[.cell "33"], ""⟩],
      0 < r.cells.length) ∧
    (∃ out, sortTable samplePlatform
        [⟨[.cell "10"], ""⟩, ⟨[.cell "2"], ""⟩, ⟨[.cell "33"], ""⟩] 0 "number" = some out ∧
      out.Perm [⟨[.cell "10"], ""⟩, ⟨[.cell "2"], ""⟩, ⟨[.cell "33"], ""⟩] ∧
      out.Pairwise (fun a b => ∀ x y, cellText a 0 = some x → cellText b 0 = some y →
        (samplePlatform.parseFloat x).le (samplePlatform.parseFloat y))) ∧
    (∃ out, sortTable samplePlatform
        [⟨[.cell "10"], ""⟩, ⟨[.cell "2"], ""⟩, ⟨[.cell "33"], ""⟩] 0 "text" = some out ∧
      out.Perm [⟨[.cell "10"], ""⟩, ⟨[.cell "2"], ""⟩, ⟨[.cell "33"], ""⟩] ∧
      out.Pairwise (fun a b => ∀ x y, cellText a 0 = some x → cellText b 0 = some y →
        samplePlatform.localeCompare x y ≤ 0)) := by
  have hcol : ∀ r ∈ [(⟨[.cell "10"], ""⟩ : Row), ⟨[.cell "2"], ""⟩, ⟨[.cell "33"], ""⟩],
      0 < r.cells.length := by decide
  have h := sortTable_sorted samplePlatform
    [⟨[.cell "10"], ""⟩, ⟨[.cell "2"], ""⟩, ⟨[.cell "33"], ""⟩] 0 hcol
  refine ⟨hcol, h.1 ?_, h.2.1 ?_ ?_⟩
  · intro r hr t ht
    have c10 : cellText ⟨[.cell "10"], ""⟩ 0 = some "10" := by decide
    have c2 : cellText ⟨[.cell "2"], ""⟩ 0 = some "2" := by decide
    have c33 : cellText ⟨[.cell "33"], ""⟩ 0 = some "33" := by decide
    simp only [List.mem_cons, List.mem_singleton, List.not_mem_nil, or_false] at hr
    rcases hr with rfl | rfl | rfl
    · rw [c10] at ht
      cases ht
      simp [samplePlatform]
    · rw [c2] at ht
      cases ht
      simp [samplePlatform]
    · rw [c33] at ht
      cases ht
      simp [samplePlatform]
  · intro x y
    exact compareCodePoints_total x.data y.data
  · intro x y z hxy hyz
    exact compareCodePoints_trans x.data y.data z.data hxy hyz

/-- C4 as stated fails on a table with a row that has no cell in the column:
with the rows `10`, `2` and a row without cells, sorted by column 0 as numbers,
the comparator throws on the missing cell, `sortTable` does not return and the
rows stay `10`, `2`, which is not a non-decreasing order of the numbers. -/
theorem sortTable_missing_cell :
    sortTable samplePlatform [⟨[.cell "10"], ""⟩, ⟨[.cell "2"], ""⟩, ⟨[], ""⟩] 0 "number" =
      none ∧
    rowsAfterSortTable samplePlatform [⟨[.cell "10"], ""⟩, ⟨[.cell "2"], ""⟩, ⟨[], ""⟩] 0
      "number" = [⟨[.cell "10"], ""⟩, ⟨[.cell "2"], ""⟩, ⟨[], ""⟩] ∧
    cellText ⟨[.cell "10"], ""⟩ 0 = some "10" ∧
    cellText ⟨[.cell "2"], ""⟩ 0 = some "2" ∧
    samplePlatform.parseFloat "10" = .fin 10 ∧
    samplePlatform.parseFloat "2" = .fin 2 ∧
    ¬ (samplePlatform.parseFloat "10").le (samplePlatform.parseFloat "2") := by
  refine ⟨by decide, by decide, by decide, by decide, by decide, by decide, ?_⟩
  simp [samplePlatform, JSNumber.le]
  norm_num

/-- C5: `filterTable` keeps every row with its nodes, in the same order, and
sets the display of a row to the empty string exactly when the lower-cased
needle occurs in the lower-cased text of the row, to `none` otherwise. -/
theorem filterTable_spec (P : Platform) (tbody : List Row) (filterValue : String) :
    (filterTable P tbody filterValue).map Row.nodes = tbody.map Row.nodes ∧
    (filterTable P tbody filterValue).length = tbody.length ∧
    ∀ row ∈ filterTable P tbody filterValue,
      (row.display = "" ∨ row.display = "none") ∧
      (row.display = "" ↔ ∃ pre post,
        (P.toLowerCase row.textContent).data = pre ++ (P.toLowerCase filterValue).data ++ post) := by
  refine ⟨?_, ?_, ?_⟩
  · simp [filterTable, Function.comp_def]
  · simp [filterTable]
  · intro row hrow
    simp only [filterTable, List.mem_map] at hrow
    obtain ⟨r, _, rfl⟩ := hrow
    rw [← includes_iff]
    by_cases h : includes (P.toLowerCase r.textContent) (P.toLowerCase filterValue) = true
    · simp [h, Row.textContent]
    · simp [h, Row.textContent]

/-! ## Theorems: draft persistence -/

/-- C2, as amended: for a form of text controls (`Field`) whose name
attributes are pairwise distinct and stand for themselves in a selector, saving a draft from the fields and then
loading the page (same fields, values as served) with that draft present gives
every field whose name is in the draft the value it had when the draft was
saved and leaves every other field as served; nothing is logged or notified. -/
theorem draft_round_trip (P : Platform) (formId : String) (page : DraftPage)
    (fresh : List Field)
    (hnames : fresh.map Field.name = page.form.map Field.name)
    (hdistinct : (page.form.filterMap Field.name).Nodup)
    (hplain : ∀ k ∈ page.form.filterMap Field.name, plainKey k = true) :
    (loadDraft P formId { saveDraft formId page with form := fresh }).form =
      roundTripExpected page.form fresh ∧
    (loadDraft P formId { saveDraft formId page with form := fresh }).console =
      page.console ∧
    (loadDraft P formId { saveDraft formId page with form := fresh }).alerts =
      page.alerts := by
  have hfresh : fresh.filterMap Field.name = page.form.filterMap Field.name := by
    have h1 : ∀ l : List Field, l.filterMap Field.name = (l.map Field.name).filterMap id := by
      intro l
      rw [List.filterMap_map]
      rfl
    rw [h1 fresh, h1 page.form, hnames]
  have hkeys : ∀ k ∈ objectKeys (draftData page.form), plainKey k = true := by
    intro k hk
    rw [mem_objectKeys, List.mem_map] at hk
    obtain ⟨⟨k2, v2⟩, hmem, hk2⟩ := hk
    simp only at hk2
    subst hk2
    rw [draftData_eq page.form hdistinct, List.mem_filter, mem_formDataEntries] at hmem
    obtain ⟨⟨f, hf, hn, _, _⟩, _⟩ := hmem
    exact hplain k2 (List.mem_filterMap.mpr ⟨f, hf, hn⟩)
  have hres := restoreFields_plain P (draftData page.form) (objectKeys (draftData page.form))
    fresh hkeys (hfresh ▸ hdistinct)
  have hexp := restored_eq_expected page.form hdistinct page.form fresh hnames
    (fun x hx => hx)
  simp only [loadDraft, saveDraft, getItem_setItem, StoredText.truthy, if_true, hres, hexp,
    roundTripExpected, and_self]

/-- Witness of C2 as amended: a form with the fields `title` and `body`. -/
theorem draft_round_trip_witness :
    (loadDraft samplePlatform "f"
      { saveDraft "f" ⟨[⟨some "title", "Hi"⟩, ⟨some "body", "text"⟩, ⟨none, "q"⟩], [], [], [], []⟩
        with form := [⟨some "title", ""⟩, ⟨some "body", ""⟩, ⟨none, ""⟩] }).form =
      roundTripExpected [⟨some "title", "Hi"⟩, ⟨some "body", "text"⟩, ⟨none, "q"⟩]
        [⟨some "title", ""⟩, ⟨some "body", ""⟩, ⟨none, ""⟩] ∧
    roundTripExpected [⟨some "title", "Hi"⟩, ⟨some "body", "text"⟩, ⟨none, "q"⟩]
        [⟨some "title", ""⟩, ⟨some "body", ""⟩, ⟨none, ""⟩] =
      [⟨some "title", "Hi"⟩, ⟨some "body", "text"⟩, ⟨none, ""⟩] :=
  ⟨(draft_round_trip samplePlatform "f"
      ⟨[⟨some "title", "Hi"⟩, ⟨some "body", "text"⟩, ⟨none, "q"⟩], [], [], [], []⟩
      [⟨some "title", ""⟩, ⟨some "body", ""⟩, ⟨none, ""⟩]
      (by decide) (by decide) (by decide)).1, by decide⟩

/-- C2 as stated fails on a form with two fields of one name: the draft keeps
the value of the last one and the loader writes it into the first one. It
fails as well on a name with a double quote where the selector built from the
name is a syntax error (as on the sample platform): the loader stops there and
restores nothing after it. -/
theorem draft_round_trip_shared_name :
    (loadDraft samplePlatform "f"
      { saveDraft "f" ⟨[⟨some "a", "x"⟩, ⟨some "a", "y"⟩], [], [], [], []⟩
        with form := [⟨some "a", ""⟩, ⟨some "a", ""⟩] }).form =
      [⟨some "a", "y"⟩, ⟨some "a", ""⟩] ∧
    roundTripExpected [⟨some "a", "x"⟩, ⟨some "a", "y"⟩] [⟨some "a", ""⟩, ⟨some "a", ""⟩] =
      [⟨some "a", "x"⟩, ⟨some "a", "y"⟩] ∧
    (loadDraft samplePlatform "f"
      { saveDraft "f" ⟨[⟨some "a", "x"⟩, ⟨some "a", "y"⟩], [], [], [], []⟩
        with form := [⟨some "a", ""⟩, ⟨some "a", ""⟩] }).form ≠
      roundTripExpected [⟨some "a", "x"⟩, ⟨some "a", "y"⟩]
        [⟨some "a", ""⟩, ⟨some "a", ""⟩] ∧
    (loadDraft samplePlatform "f"
      { saveDraft "f" ⟨[⟨some "a\"b", "x"⟩, ⟨some "c", "y"⟩], [], [], [], []⟩
        with form := [⟨some "a\"b", ""⟩, ⟨some "c", ""⟩] }).form =
      [⟨some "a\"b", ""⟩, ⟨some "c", ""⟩] := by
  decide

/-- C3: a burst of calls of a debounced function (times in order, each call
less than `wait` after the one before, last call at `tl` with arguments `al`)
leads to at most one invocation of `func`, after all the calls and with the
arguments of the last call, and to exactly that one as soon as the timers run
at or after `tl + wait`. For draft persistence: edits of the form within one
window of 1000 ms (last edit at `tp`, leaving the fields `formL`) lead to at
most one `localStorage.setItem`, of the draft of `formL` under
`draft_<formId>`, and to exactly that one as soon as the timers run at or
after `tp + 1000`. -/
theorem debounce_coalesces {α : Type} (wait : Nat) (events : List (DebounceEvent α))
    (tl : Nat) (al : α)
    (hsorted : (events.map DebounceEvent.time).Pairwise (· ≤ ·))
    (hburst : List.Chain' (fun a b => b < a + wait) ((callsOf events).map Prod.fst))
    (hlast : (callsOf events).getLast? = some (tl, al))
    (formId : String) (page : DraftPage) (pevents : List PageEvent)
    (tp : Nat) (formL : List Field)
    (hpsorted : (pevents.map PageEvent.time).Pairwise (· ≤ ·))
    (hwindow : ∀ c ∈ inputsOf pevents, ∀ c' ∈ inputsOf pevents, c'.1 < c.1 + 1000)
    (hplast : (inputsOf pevents).getLast? = some (tp, formL)) :
    ((debounceRun wait events).2 = (callsOf events).map (fun c => .called c.2) ∨
      (debounceRun wait events).2 =
        (callsOf events).map (fun c => .called c.2) ++ [.invoked al]) ∧
    (∀ t, tl + wait ≤ t →
      (debounceRun wait (events ++ [.tick t])).2 =
        (callsOf events).map (fun c => .called c.2) ++ [.invoked al]) ∧
    ((pageRun formId page pevents).page.writes = page.writes ∨
      (pageRun formId page pevents).page.writes =
        page.writes ++ [("draft_" ++ formId, .json (draftData formL))]) ∧
    (∀ t, tp + 1000 ≤ t →
      (pageRun formId page (pevents ++ [.tick t])).page.writes =
        page.writes ++ [("draft_" ++ formId, .json (draftData formL))]) := by
  have hg := debounce_burst wait events [] tl al hsorted hburst hlast
  have hp := page_burst formId pevents page tp formL hpsorted hwindow hplast
  refine ⟨?_, ?_, ?_, ?_⟩
  · rcases hg with h | h
    · left
      simp [debounceRun, h]
    · right
      simp [debounceRun, h]
  · intro t ht
    unfold debounceRun
    rw [debounceRunFrom_append]
    rcases hg with h | h
    · rw [h]
      simp [debounceRunFrom, debounceStep, Debounced.fire, ht]
    · rw [h]
      simp [debounceRunFrom, debounceStep, Debounced.fire]
  · rcases hp with h | h
    · left
      exact h.1
    · right
      exact h.1
  · intro t ht
    unfold pageRun
    rw [pageRunFrom_append]
    generalize pageRunFrom formId ⟨page, ⟨none⟩⟩ pevents = S at hp
    obtain ⟨pg, tm⟩ := S
    rcases hp with ⟨hw, hf, htimer⟩ | ⟨hw, htimer⟩
    · simp only at hw hf htimer
      subst htimer
      simp [pageRunFrom, pageStep, Debounced.fire, ht, saveDraft, hw, hf]
    · simp only at hw htimer
      subst htimer
      simp [pageRunFrom, pageStep, Debounced.fire, hw]

/-- Witness of C3: three calls 400 ms apart with `wait = 1000`, and three
edits 400 ms apart, the timers running in between and afterwards. -/
theorem debounce_coalesces_witness :
    (debounceRun 1000
      [.call 0 "a", .call 400 "b", .tick 500, .call 800 "c", .tick 1700, .tick 1900]).2 =
      [.called "a", .called "b", .called "c", .invoked "c"] ∧
    (pageRun "f" ⟨[⟨some "title", ""⟩], [], [], [], []⟩
      [.input 0 [⟨some "title", "H"⟩], .input 400 [⟨some "title", "He"⟩], .tick 500,
        .input 800 [⟨some "title", "Hey"⟩], .tick 1700,
        .tick 1900]).page.writes = [("draft_f", .json [("title", "Hey")])] ∧
    ∀ t, 800 + 1000 ≤ t →
      (pageRun "f" ⟨[⟨some "title", ""⟩], [], [], [], []⟩
        ([.input 0 [⟨some "title", "H"⟩], .input 400 [⟨some "title", "He"⟩], .tick 500,
          .input 800 [⟨some "title", "Hey"⟩], .tick 1700] ++ [.tick t])).page.writes =
        [] ++ [("draft_" ++ "f", .json (draftData [⟨some "title", "Hey"⟩]))] :=
  ⟨by decide, by decide,
   (debounce_coalesces 1000
      [.call 0 "a", .call 400 "b", .tick 500, .call 800 "c", .tick 1700] 800 "c"
      (by decide) (by simp [callsOf]) (by decide)
      "f" ⟨[⟨some "title", ""⟩], [], [], [], []⟩
      [.input 0 [⟨some "title", "H"⟩], .input 400 [⟨some "title", "He"⟩], .tick 500,
        .input 800 [⟨some "title", "Hey"⟩], .tick 1700] 800 [⟨some "title", "Hey"⟩]
      (by decide) (by decide) (by decide)).2.2.2⟩

/-- C9: when the string stored under `draft_<formId>` does not parse, loading
changes no field, shows no notification and writes nothing to storage; a
non-empty string gets the one console warning, the empty string (which the
guard `if (savedData)` skips) gets none. -/
theorem loadDraft_malformed (P : Platform) (formId : String) (page : DraftPage)
    (text : String)
    (h : getItem page.storage ("draft_" ++ formId) = some (.malformed text)) :
    (loadDraft P formId page).form = page.form ∧
    (loadDraft P formId page).alerts = page.alerts ∧
    (loadDraft P formId page).storage = page.storage ∧
    (loadDraft P formId page).writes = page.writes ∧
    (loadDraft P formId page).console =
      if text = "" then page.console else page.console ++ ["Failed to load form draft"] := by
  by_cases ht : text = ""
  · simp [loadDraft, h, StoredText.truthy, ht]
  · simp [loadDraft, h, StoredText.truthy, ht]

/-- Witness of C9: a truncated draft under `draft_f`. -/
theorem loadDraft_malformed_witness :
    (loadDraft samplePlatform "f"
      ⟨[⟨some "title", "served"⟩], [("draft_f", .malformed "\x7b\"title\":\"Hi")], [], [], []⟩).form =
      [⟨some "title", "served"⟩] :=
  (loadDraft_malformed samplePlatform "f"
    ⟨[⟨some "title", "served"⟩], [("draft_f", .malformed "\x7b\"title\":\"Hi")], [], [], []⟩
    "\x7b\"title\":\"Hi" (by decide)).1

/-- C8, the code at the failing input: an edit at time 0, a valid submit at
time 500 and the timers at time 1000. The submit leaves no draft; the timer of
the edit, still pending, then writes the draft again. -/
theorem draft_reappears_after_submit :
    getItem (pageRun "f" ⟨[⟨some "title", ""⟩], [], [], [], []⟩
      [.input 0 [⟨some "title", "Hi"⟩], .submit 500 true]).page.storage "draft_f" = none ∧
    getItem (pageRun "f" ⟨[⟨some "title", ""⟩], [], [], [], []⟩
      [.input 0 [⟨some "title", "Hi"⟩], .submit 500 true, .tick 1000]).page.storage "draft_f" =
      some (.json [("title", "Hi")]) := by
  decide

/-! ## Theorems: dispatcher, second part -/

/-- C12: with a mandatory input missing the dispatcher shows one `warning`
notification and does nothing else: `bulkUserAction` with an empty action or
without a checked user, `processPayment` with an empty amount or an empty
payment method. No prompt, no request, no form, whatever the user or the
server would have answered. -/
theorem missing_input_warns (confirm : String → Bool) (server : Request → FetchOutcome)
    (doc : Document) (inputs : PaymentInputs) (today feeId : String) :
    (doc.bulkAction = "" →
      bulkUserAction confirm doc = [Effect.showAlert "Please select an action" "warning"]) ∧
    (doc.bulkAction ≠ "" → doc.checkedUsers = [] →
      bulkUserAction confirm doc =
        [Effect.showAlert "Please select at least one user" "warning"]) ∧
    (doc.bulkAction = "" ∨ doc.checkedUsers = [] →
      ∃ m, bulkUserAction confirm doc = [Effect.showAlert m "warning"]) ∧
    (inputs.amount = "" ∨ inputs.paymentMethod = "" →
      processPayment server doc inputs today feeId =
        [Effect.showAlert "Please fill in all required fields" "warning"]) := by
  have h1 : doc.bulkAction = "" →
      bulkUserAction confirm doc = [Effect.showAlert "Please select an action" "warning"] := by
    intro h
    simp [bulkUserAction, h]
  have h2 : doc.bulkAction ≠ "" → doc.checkedUsers = [] →
      bulkUserAction confirm doc =
        [Effect.showAlert "Please select at least one user" "warning"] := by
    intro ha hc
    simp [bulkUserAction, ha, hc]
  refine ⟨h1, h2, ?_, ?_⟩
  · intro h
    by_cases ha : doc.bulkAction = ""
    · exact ⟨_, h1 ha⟩
    · rcases h with h | h
      · exact absurd h ha
      · exact ⟨_, h2 ha h⟩
  · intro h
    simp [processPayment, h]

/-- Witness of C12: no action chosen, and a payment without a method. -/
theorem missing_input_warns_witness :
    bulkUserAction (fun _ => true) ⟨some "tok", "", [⟨"7", some "Ann"⟩]⟩ =
      [Effect.showAlert "Please select an action" "warning"] ∧
    processPayment (fun _ => .response 200 none) ⟨some "tok", "", []⟩ ⟨"100", "", "T1"⟩
      "2024-05-01" "9" = [Effect.showAlert "Please fill in all required fields" "warning"] :=
  ⟨(missing_input_warns (fun _ => true) (fun _ => .response 200 none)
      ⟨some "tok", "", [⟨"7", some "Ann"⟩]⟩ ⟨"100", "", "T1"⟩ "2024-05-01" "9").1 rfl,
   (missing_input_warns (fun _ => true) (fun _ => .response 200 none)
      ⟨some "tok", "", []⟩ ⟨"100", "", "T1"⟩ "2024-05-01" "9").2.2.2 (Or.inr rfl)⟩

/-- C13, as amended: when the request of `startClass`, `endClass`,
`markAttendance` or `processPayment` ends without an ok response (a status
outside 200..299 or a network failure), the operation issues that one request
and then shows one `danger` notification: no `success` notification, no
reload, no second request. `deleteDepartment` does the same whenever the
request does not end in a JSON body with a true `success` flag. -/
theorem failure_shows_danger (confirm : String → Bool) (hyes : ∀ m, confirm m = true)
    (server : Request → FetchOutcome) (doc : Document)
    (attendance : AttendanceInputs) (payment : PaymentInputs)
    (id name studentId status today : String) :
    ((server (jsonPost doc ("/classes/" ++ id ++ "/start"))).ok = false →
      startClass confirm server doc id =
        [Effect.confirm "Start this class session?",
         Effect.fetch (jsonPost doc ("/classes/" ++ id ++ "/start")),
         Effect.showAlert "Failed to start class" "danger"]) ∧
    ((server (jsonPost doc ("/classes/" ++ id ++ "/end"))).ok = false →
      endClass confirm server doc id =
        [Effect.confirm "End this class session?",
         Effect.fetch (jsonPost doc ("/classes/" ++ id ++ "/end")),
         Effect.showAlert "Failed to end class" "danger"]) ∧
    ((server (attendanceRequest doc attendance id studentId status)).ok = false →
      markAttendance server doc attendance id studentId status =
        [Effect.fetch (attendanceRequest doc attendance id studentId status),
         Effect.showAlert "Failed to mark attendance" "danger"]) ∧
    (payment.amount ≠ "" → payment.paymentMethod ≠ "" →
      (server (paymentRequest doc payment today id)).ok = false →
      processPayment server doc payment today id =
        [Effect.fetch (paymentRequest doc payment today id),
         Effect.showAlert "Payment processing failed" "danger"]) ∧
    ((∀ s m, server (jsonPost doc ("/departments/" ++ id ++ "/delete")) ≠
        .response s (some (true, m))) →
      ∃ m, deleteDepartment confirm server doc id name =
        [Effect.confirm
          ("Delete department \"" ++ name ++ "\"? This action cannot be undone."),
         Effect.fetch (jsonPost doc ("/departments/" ++ id ++ "/delete")),
         Effect.showAlert m "danger"]) := by
  refine ⟨?_, ?_, ?_, ?_, ?_⟩
  · intro h
    simp [startClass, hyes, reloadOrAlert, h]
  · intro h
    simp [endClass, hyes, reloadOrAlert, h]
  · intro h
    simp [markAttendance, notifyOrAlert, h]
  · intro ha hm h
    simp [processPayment, ha, hm, notifyOrAlert, h]
  · intro h
    cases hs : server (jsonPost doc ("/departments/" ++ id ++ "/delete")) with
    | networkError =>
      exact ⟨"Failed to delete department",
        by simp [deleteDepartment, hyes, hs, deleteDepartmentThen]⟩
    | response st js =>
      cases js with
      | none =>
        exact ⟨"Failed to delete department",
          by simp [deleteDepartment, hyes, hs, deleteDepartmentThen]⟩
      | some d =>
        obtain ⟨ok, m⟩ := d
        cases ok with
        | true => exact absurd hs (h st m)
        | false => exact ⟨m, by simp [deleteDepartment, hyes, hs, deleteDepartmentThen]⟩

/-- Witness of C13 as amended: `startClass` answered with status 500. -/
theorem failure_shows_danger_witness :
    startClass (fun _ => true) (fun _ => .response 500 none) ⟨some "tok", "", []⟩ "12" =
      [Effect.confirm "Start this class session?",
       Effect.fetch (jsonPost ⟨some "tok", "", []⟩ ("/classes/" ++ "12" ++ "/start")),
       Effect.showAlert "Failed to start class" "danger"] :=
  (failure_shows_danger (fun _ => true) (fun _ => rfl) (fun _ => .response 500 none)
    ⟨some "tok", "", []⟩ ⟨none, none, none, none, none⟩ ⟨"100", "cash", "T1"⟩
    "12" "Maths" "5" "present" "2024-05-01").1 rfl

/-- C13 as stated fails for `deleteDepartment`, which reads the JSON body and
not the status: a response with status 500 and a body whose `success` flag is
true gets a `success` notification and a scheduled reload. -/
theorem deleteDepartment_ignores_status :
    (FetchOutcome.response 500 (some (true, "Department deleted"))).ok = false ∧
    deleteDepartment (fun _ => true)
      (fun _ => .response 500 (some (true, "Department deleted")))
      ⟨some "tok", "", []⟩ "3" "Maths" =
      [Effect.confirm "Delete department \"Maths\"? This action cannot be undone.",
       Effect.fetch (jsonPost ⟨some "tok", "", []⟩ "/departments/3/delete"),
       Effect.showAlert "Department deleted" "success",
       Effect.scheduleReload 1000] := by
  decide

/-- C14, as amended: `bulkUserAction` (with its inputs present),
`resetUserPassword`, `startClass`, `endClass`, `deleteDepartment` and
`confirmDelete` start with a prompt and do nothing more when it is declined.
`markAttendance` and `processPayment` (with its inputs present) have no
confirmation step: their first effect is the request and they never prompt. -/
theorem confirmation_step (confirm : String → Bool) (server : Request → FetchOutcome)
    (doc : Document) (attendance : AttendanceInputs) (payment : PaymentInputs)
    (id name url studentId status today : String) :
    (doc.bulkAction ≠ "" → doc.checkedUsers ≠ [] →
      ∃ m rest, bulkUserAction confirm doc = Effect.confirm m :: rest ∧
        (confirm m = false → rest = [])) ∧
    (∃ m rest, resetUserPassword confirm doc id name = Effect.confirm m :: rest ∧
      (confirm m = false → rest = [])) ∧
    (∃ m rest, startClass confirm server doc id = Effect.confirm m :: rest ∧
      (confirm m = false → rest = [])) ∧
    (∃ m rest, endClass confirm server doc id = Effect.confirm m :: rest ∧
      (confirm m = false → rest = [])) ∧
    (∃ m rest, deleteDepartment confirm server doc id name = Effect.confirm m :: rest ∧
      (confirm m = false → rest = [])) ∧
    (∃ m rest, confirmDelete confirm doc name url = Effect.confirm m :: rest ∧
      (confirm m = false → rest = [])) ∧
    (∃ rest, markAttendance server doc attendance id studentId status =
        Effect.fetch (attendanceRequest doc attendance id studentId status) :: rest ∧
      rest.any Effect.isConfirm = false) ∧
    (payment.amount ≠ "" → payment.paymentMethod ≠ "" →
      ∃ rest, processPayment server doc payment today id =
        Effect.fetch (paymentRequest doc payment today id) :: rest ∧
      rest.any Effect.isConfirm = false) := by
  refine ⟨?_, ?_, ?_, ?_, ?_, ?_, ?_, ?_⟩
  · intro ha hc
    have hlen : ¬ doc.checkedUsers.length = 0 := by simpa using hc
    simp only [bulkUserAction, ha, if_false, hlen]
    split
    · exact ⟨_, _, rfl, fun h => by simp_all⟩
    · exact ⟨_, [], rfl, fun _ => rfl⟩
  · simp only [resetUserPassword]
    split
    · exact ⟨_, _, rfl, fun h => by simp_all⟩
    · exact ⟨_, [], rfl, fun _ => rfl⟩
  · simp only [startClass]
    split
    · exact ⟨_, _, rfl, fun h => by simp_all⟩
    · exact ⟨_, [], rfl, fun _ => rfl⟩
  · simp only [endClass]
    split
    · exact ⟨_, _, rfl, fun h => by simp_all⟩
    · exact ⟨_, [], rfl, fun _ => rfl⟩
  · simp only [deleteDepartment]
    split
    · exact ⟨_, _, rfl, fun h => by simp_all⟩
    · exact ⟨_, [], rfl, fun _ => rfl⟩
  · simp only [confirmDelete]
    split
    · exact ⟨_, _, rfl, fun h => by simp_all⟩
    · exact ⟨_, [], rfl, fun _ => rfl⟩
  · refine ⟨_, rfl, ?_⟩
    unfold notifyOrAlert
    split <;> rfl
  · intro ha hm
    refine ⟨notifyOrAlert "Payment processed successfully" "Payment processing failed"
      (server (paymentRequest doc payment today id)), ?_, ?_⟩
    · simp [processPayment, ha, hm]
    · unfold notifyOrAlert
      split <;> rfl

/-- Witness of C14 as amended: `markAttendance` with no optional element in
the document. -/
theorem confirmation_step_witness :
    ∃ rest, markAttendance (fun _ => .response 200 none) ⟨some "tok", "", []⟩
        ⟨none, none, none, none, none⟩ "12" "5" "present" =
        Effect.fetch (attendanceRequest ⟨some "tok", "", []⟩
          ⟨none, none, none, none, none⟩ "12" "5" "present") :: rest ∧
      rest.any Effect.isConfirm = false :=
  (confirmation_step (fun _ => false) (fun _ => .response 200 none) ⟨some "tok", "", []⟩
    ⟨none, none, none, none, none⟩ ⟨"100", "cash", "T1"⟩
    "12" "Maths" "/x" "5" "present" "2024-05-01").2.2.2.2.2.2.1

/-- C14 as stated fails: `markAttendance`, and `processPayment` with its inputs
present, send their request without any prompt, so the user has no occasion to
decline. -/
theorem markAttendance_no_prompt :
    markAttendance (fun _ => .response 200 none) ⟨some "tok", "", []⟩
      ⟨none, none, none, none, none⟩ "12" "5" "present" =
      [Effect.fetch
        ⟨"POST", "/classes/12/attendance", [("X-CSRFToken", "tok")],
          [("student_id", "5"), ("status", "present"), ("arrival_time", ""),
           ("late_minutes", "0"), ("participation_level", ""), ("behavior_notes", ""),
           ("homework_submitted", "false")]⟩,
       Effect.showAlert "Attendance marked successfully" "success",
       Effect.scheduleReload 1000] ∧
    processPayment (fun _ => .response 200 none) ⟨some "tok", "", []⟩
      ⟨"100", "cash", "T1"⟩ "2024-05-01" "9" =
      [Effect.fetch
        ⟨"POST", "/finance/fees/9/pay", [("X-CSRFToken", "tok")],
          [("amount", "100"), ("payment_method", "cash"), ("transaction_id", "T1"),
           ("payment_date", "2024-05-01")]⟩,
       Effect.showAlert "Payment processed successfully" "success",
       Effect.scheduleReload 1000] := by
  decide

/-- C16: with an action, at least one checked user and a confirming user,
`bulkUserAction` prompts once and submits one `POST` form to
`/users/bulk-action` whose hidden inputs are `action`, then one `user_ids[]`
per checked checkbox in document order with its value, then `csrf_token` with
the token exactly when the `csrf-token` meta tag exists. -/
theorem bulkUserAction_submits (confirm : String → Bool) (doc : Document)
    (ha : doc.bulkAction ≠ "") (hc : doc.checkedUsers ≠ [])
    (hyes : ∀ m, confirm m = true) :
    ∃ m, bulkUserAction confirm doc =
      [Effect.confirm m,
       Effect.submitForm
        { method := "POST"
          action := "/users/bulk-action"
          inputs :=
            [⟨"action", doc.bulkAction⟩] ++
            doc.checkedUsers.map (fun cb => ⟨"user_ids[]", cb.value⟩) ++
            (match doc.csrfMeta with
             | some token => [⟨"csrf_token", token⟩]
             | none => []) }] := by
  have hlen : ¬ doc.checkedUsers.length = 0 := by simpa using hc
  simp only [bulkUserAction, ha, if_false, hlen, hyes, if_true, csrfInputOfMeta,
    List.map_map]
  exact ⟨_, rfl⟩

/-- Witness of C16: two checked users with a token tag, one checked user
without. -/
theorem bulkUserAction_submits_witness :
    bulkUserAction (fun _ => true)
      ⟨some "tok", "deactivate", [⟨"7", some "Ann"⟩, ⟨"9", some "Bob"⟩]⟩ =
      [Effect.confirm "Are you sure you want to deactivate 2 users?",
       Effect.submitForm
        ⟨"POST", "/users/bulk-action",
          [⟨"action", "deactivate"⟩, ⟨"user_ids[]", "7"⟩, ⟨"user_ids[]", "9"⟩,
           ⟨"csrf_token", "tok"⟩]⟩] ∧
    ∃ m, bulkUserAction (fun _ => true) ⟨none, "deactivate", [⟨"7", some "Ann"⟩]⟩ =
      [Effect.confirm m,
       Effect.submitForm
        { method := "POST"
          action := "/users/bulk-action"
          inputs :=
            [⟨"action", "deactivate"⟩] ++
            [(⟨"7", some "Ann"⟩ : UserCheckbox)].map (fun cb => ⟨"user_ids[]", cb.value⟩) ++
            (match (none : Option String) with
             | some token => [⟨"csrf_token", token⟩]
             | none => []) }] :=
  ⟨by decide,
   bulkUserAction_submits (fun _ => true) ⟨none, "deactivate", [⟨"7", some "Ann"⟩]⟩
    (by decide) (by decide) (fun _ => rfl)⟩

/-- C15, the code at the failing input: a draft is stored under `draft_f` and
the `submit` event reaches the form while `checkValidity()` is false. The
validation listener rejects the submit with a warning, and the next listener
removes the draft all the same. -/
theorem invalid_submit_clears_draft :
    getItem (pageRun "f"
      ⟨[⟨some "title", ""⟩], [("draft_f", .json [("title", "Hi")])], [], [], []⟩
      [.submit 0 false]).page.storage "draft_f" = none ∧
    (pageRun "f"
      ⟨[⟨some "title", ""⟩], [("draft_f", .json [("title", "Hi")])], [], [], []⟩
      [.submit 0 false]).page.alerts =
      [("Please fill in all required fields correctly", "warning")] := by
  decide

/-! ## Theorems: form builder, second part -/

/-- C11: for a field of type `select` the `select` element holds the
placeholder option with the empty value and then the rendered options, which
are one `option` per entry of `field.options` in input order, each with the
entry's value and label; without `field.options` they are empty and the block
is rendered all the same. -/
theorem select_options (f : FieldDefinition) (h : f.type = "select") :
    fieldBlock f =
      "\n                    <div class=\"mb-3\">" ++
      "\n                        <label class=\"form-label\">" ++ f.label ++ " " ++
        requiredMarker f ++ "</label>" ++
      "\n                        <select class=\"form-control\" " ++ requiredAttr f ++ ">" ++
      "\n                            <option value=\"\">-- Select --</option>" ++
      "\n                            " ++ selectOptions f ++
      "\n                        </select>" ++
      "\n                        " ++ helpText f ++
      "\n                    </div>" ++
      "\n                " ∧
    (f.options = none → selectOptions f = "") ∧
    (∀ opts, f.options = some opts → selectOptions f = String.join (opts.map optionHTML)) ∧
    String.join (([] : List OptionEntry).map optionHTML) = "" ∧
    (∀ (o : OptionEntry) (opts : List OptionEntry),
      String.join ((o :: opts).map optionHTML) =
      "<option value=\"" ++ o.value ++ "\">" ++ o.label ++ "</option>" ++
        String.join (opts.map optionHTML)) ∧
    (∀ xs ys : List OptionEntry, String.join ((xs ++ ys).map optionHTML) =
      String.join (xs.map optionHTML) ++ String.join (ys.map optionHTML)) := by
  refine ⟨?_, ?_, ?_, rfl, ?_, ?_⟩
  · simp [fieldBlock, h, selectBlock]
  · intro hn
    simp [selectOptions, hn]
  · intro opts ho
    simp [selectOptions, ho]
  · intro o opts
    simp [join_cons, optionHTML]
  · intro xs ys
    simp [join_append]

/-- Witness of C11: a select field with two options. -/
theorem select_options_witness :
    selectOptions ⟨"select", "Grade", none, false, none, some [⟨"1", "One"⟩, ⟨"2", "Two"⟩]⟩ =
      String.join ([(⟨"1", "One"⟩ : OptionEntry), ⟨"2", "Two"⟩].map optionHTML) ∧
    String.join ([(⟨"1", "One"⟩ : OptionEntry), ⟨"2", "Two"⟩].map optionHTML) =
      "<option value=\"1\">One</option><option value=\"2\">Two</option>" :=
  ⟨(select_options ⟨"select", "Grade", none, false, none, some [⟨"1", "One"⟩, ⟨"2", "Two"⟩]⟩
      rfl).2.2.1 _ rfl, by decide⟩

/-! ## Theorems: table utility, second part -/

/-- C17: whatever the column index and the sort type, and whether the cells
parse or not, the rows of the body after `sortTable` are the rows before it in
some order: none is lost, none is duplicated. When the comparator throws
(a row without the column) the rows stay as they were. -/
theorem sortTable_perm (P : Platform) (tbody : List Row) (columnIndex : Nat)
    (sortType : String) :
    (rowsAfterSortTable P tbody columnIndex sortType).Perm tbody ∧
    (rowsAfterSortTable P tbody columnIndex sortType).length = tbody.length ∧
    (∀ out, sortTable P tbody columnIndex sortType = some out → out.Perm tbody) ∧
    (sortTable P tbody columnIndex sortType = none →
      rowsAfterSortTable P tbody columnIndex sortType = tbody) := by
  have hsome : ∀ out, sortTable P tbody columnIndex sortType = some out → out.Perm tbody := by
    intro out hout
    unfold sortTable at hout
    cases hs : jsSort (fun a b : Nat × Row => compareRows P columnIndex sortType a.2 b.2)
        tbody.enum with
    | none => simp [hs] at hout
    | some sorted =>
      have hperm := jsSort_perm _ _ _ hs
      simp only [hs, Option.bind_eq_bind, Option.some_bind, Option.pure_def,
        Option.some.injEq] at hout
      rw [foldl_appendChild _ _ (nodup_enum tbody) hperm] at hout
      subst hout
      have := hperm.map Prod.snd
      rwa [List.enum_map_snd] at this
  have hperm : (rowsAfterSortTable P tbody columnIndex sortType).Perm tbody := by
    unfold rowsAfterSortTable
    cases h : sortTable P tbody columnIndex sortType with
    | none => exact List.Perm.refl _
    | some out => exact hsome out h
  refine ⟨hperm, hperm.length_eq, hsome, ?_⟩
  intro h
  simp [rowsAfterSortTable, h]

/-! ## Theorems: dynamic form fields and input validation -/

/-- C18, the code at the failing input: two entries are added, the first one
is removed, and a third one is added. The new entry takes the number of
children, 1, as its index, which the remaining entry already carries: both
submit under `subjects[1][...]`. -/
theorem subject_index_reused :
    runSubjectCalls [.add, .add, .remove 0, .add] [] = [1, 1] ∧
    ¬ (runSubjectCalls [.add, .add, .remove 0, .add] []).Nodup ∧
    (runSubjectCalls [.add, .add, .remove 0, .add] []).map subjectFieldNames =
      [["subjects[1][name]", "subjects[1][tutor_id]", "subjects[1][sessions_per_week]",
        "subjects[1][duration]"],
       ["subjects[1][name]", "subjects[1][tutor_id]", "subjects[1][sessions_per_week]",
        "subjects[1][duration]"]] := by
  decide

/-- C19: `validateInput` returns true exactly when the trimmed value is not
empty and, for an input of type `email`, holds one `@`, no white space, a
non-empty part before the `@` and after it a dot with at least one character
on each side; afterwards the input carries the class `error` exactly when the
result is false. -/
theorem validateInput_spec (input : InputElement) :
    ((validateInput input).1 = true ↔
      (jsTrim input.value).data ≠ [] ∧
      (input.type = "email" →
        (jsTrim input.value).data.count '@' = 1 ∧
        (∀ c ∈ (jsTrim input.value).data, isJsWhitespace c = false) ∧
        ∃ l d t, (jsTrim input.value).data = l ++ '@' :: (d ++ '.' :: t) ∧
          l ≠ [] ∧ d ≠ [] ∧ t ≠ [])) ∧
    (validateInput input).2.hasErrorClass = !(validateInput input).1 := by
  have hempty : jsTrim input.value = "" ↔ (jsTrim input.value).data = [] := by
    constructor
    · intro h
      rw [h]
    · intro h
      exact String.ext h
  unfold validateInput
  by_cases hv : jsTrim input.value = ""
  · have hd := hempty.mp hv
    simp [hv, showInputError, hd]
  · have hd : (jsTrim input.value).data ≠ [] := fun h => hv (hempty.mpr h)
    by_cases ht : input.type = "email"
    · by_cases hm : emailRegexTest (jsTrim input.value) = true
      · have hw := (emailRegex_words (jsTrim input.value).data).mp hm
        simp only [hv, if_false, ht, if_true, hm, clearInputError, true_iff, Bool.not_true,
          and_true]
        exact ⟨hd, fun _ => hw⟩
      · have hw : ¬ matchItems emailRegex (jsTrim input.value).data = true := hm
        rw [emailRegex_words] at hw
        simp only [hv, if_false, ht, if_true, hm, showInputError, Bool.false_eq_true,
          false_iff, Bool.not_false, and_true]
        rintro ⟨_, h⟩
        exact hw (h trivial)
    · simp [hv, ht, clearInputError, hd]

/-! ## Theorems: number animation -/

/-- C20: for a non-negative integer target, with floating-point arithmetic
that rounds monotonically and loses at most a hundred-thousandth of a result,
the counter has stopped after 94 animation frames and `updateNumber` has run at
most 94 times, once per value shown; the values shown are integers between 0
and the target, in non-decreasing order, and the last one is the target. -/
theorem animateNumber_terminates (round : ℚ → ℚ) (ε : ℚ) (target : Nat)
    (hmono : ∀ x y, x ≤ y → round x ≤ round y)
    (hidem : ∀ x, round (round x) = round x)
    (hzero : round 0 = 0)
    (hquot : round (1500 / 16) = 1500 / 16)
    (htarget : round (target : ℚ) = (target : ℚ))
    (heps0 : 0 ≤ ε) (heps : ε ≤ 1 / 100000)
    (herr : ∀ x, 1 / 128 ≤ x → x ≤ 2 * (target : ℚ) → x * (1 - ε) ≤ round x) :
    (animateNumber round target 94).running = false ∧
    (animateNumber round target 94).frames ≤ 94 ∧
    (animateNumber round target 94).shown.length = (animateNumber round target 94).frames ∧
    (∀ m, 94 ≤ m → animateNumber round target m = animateNumber round target 94) ∧
    (∀ v ∈ (animateNumber round target 94).shown, 0 ≤ v ∧ v ≤ (target : Int)) ∧
    (animateNumber round target 94).shown.Pairwise (· ≤ ·) ∧
    (animateNumber round target 94).shown.getLast? = some (target : Int) := by
  have h : RoundsWell round ε target :=
    ⟨hmono, hidem, hzero, hquot, htarget, heps0, heps, herr⟩
  have inv := counterInv_all h 94
  have hstop := counter_stops h
  exact ⟨hstop, inv.frames_le, inv.shown_length,
    fun m hm => animateNumber_stable 94 hstop m hm, inv.shown_range, inv.shown_sorted,
    inv.shown_last hstop⟩

/-- Witness of C20: exact arithmetic and the target 3. -/
theorem animateNumber_terminates_witness :
    (animateNumber id 3 94).running = false ∧
    (animateNumber id 3 94).shown.getLast? = some ((3 : Nat) : Int) :=
  have h := animateNumber_terminates id 0 3 (fun _ _ hxy => hxy) (fun _ => rfl) rfl rfl rfl
    (le_refl 0) (by norm_num) (fun x _ _ => by simp)
  ⟨h.1, h.2.2.2.2.2.2⟩

end LMS
